import Mathlib

/-!
Verification development for the MNPI document-classification pipeline
(`classifier.py`, `aggregator.py`, `analyzer.py`).

Modelling conventions:
* Python values are embedded as the inductive `PyVal`; dictionaries are
  association lists with string keys (`PyDict`), with `dictSet` modelling
  item assignment (overwrite-or-append, preserving insertion order) and
  `pyGet` modelling `dict.get`.
* Python floats are modelled as exact rationals; `round(x, 2)` is modelled
  as decimal round-half-to-even (`round2`).  The special spellings
  `inf`/`nan` accepted by `float(str)` are modelled as coercion failures;
  every theorem below is insensitive to this corner (both routes produce an
  in-domain confidence).
* Code that can raise an exception is embedded in `Except Unit`; `.error ()`
  marks an uncaught Python exception.
* `json.loads` is modelled by the executable recursive-descent parser
  `jsonLoads` implementing the JSON grammar the library accepts on the
  inputs in scope (objects, arrays, strings with escapes, numbers,
  `true`/`false`/`null`).
-/

/- The Batteries rational-number operations are `@[irreducible]`; making
them semireducible again lets closed instances of the definitions below
evaluate inside `decide`/`rfl` proofs. -/
attribute [local semireducible] Rat.mul Rat.add Rat.sub Rat.inv Rat.ofScientific

/-- Embedded Python value. -/
inductive PyVal where
  | none : PyVal
  | bool (b : Bool) : PyVal
  | int (n : Int) : PyVal
  | float (q : ℚ) : PyVal
  | str (s : String) : PyVal
  | list (elems : List PyVal) : PyVal
  | dict (entries : List (String × PyVal)) : PyVal

/-- A Python dict with string keys, as an insertion-ordered association list. -/
abbrev PyDict := List (String × PyVal)

/-- `d.get(k)` / `d[k]`-style lookup: the value stored under `k`, if any. -/
def pyGet : PyDict → String → Option PyVal
  | [], _ => Option.none
  | (k', v) :: rest, k => if k' = k then some v else pyGet rest k

/-- `d[k] = v`: overwrite the existing binding in place, else append. -/
def dictSet : PyDict → String → PyVal → PyDict
  | [], k, v => [(k, v)]
  | (k', v') :: rest, k, v =>
    if k' = k then (k, v) :: rest else (k', v') :: dictSet rest k v

theorem pyGet_dictSet_self (d : PyDict) (k : String) (v : PyVal) :
    pyGet (dictSet d k v) k = some v := by
  induction d with
  | nil => simp [dictSet, pyGet]
  | cons e rest ih =>
    by_cases h : e.1 = k <;> simp [dictSet, pyGet, h, ih]

theorem pyGet_dictSet_ne (d : PyDict) (k k' : String) (v : PyVal) (h : k ≠ k') :
    pyGet (dictSet d k v) k' = pyGet d k' := by
  induction d with
  | nil =>
    simp only [dictSet, pyGet, if_neg h]
  | cons e rest ih =>
    by_cases he : e.1 = k
    · simp [dictSet, pyGet, he, h, Ne.symm h]
    · by_cases he' : e.1 = k' <;>
        simp [dictSet, pyGet, he, he', ih, Ne.symm h]

/-- Python truthiness (`bool(x)`), for the values in scope. -/
def pyTruthy : PyVal → Bool
  | PyVal.none => false
  | PyVal.bool b => b
  | PyVal.int n => decide (n ≠ 0)
  | PyVal.float q => decide (q ≠ 0)
  | PyVal.str s => decide (s ≠ "")
  | PyVal.list l => !l.isEmpty
  | PyVal.dict d => !d.isEmpty

/-- The opening brace character, written by code point to keep string
literals free of braces. -/
def lbrace : Char := Char.ofNat 123

/-- The closing brace character. -/
def rbrace : Char := Char.ofNat 125

/-! ### Numeric helpers: clamping and `round(x, 2)` -/

/-- `max(0.0, min(0.95, q))`. -/
def clamp095 (q : ℚ) : ℚ := max 0 (min 0.95 q)

/-- Round to the nearest integer, ties to even (Python `round` on a float).
`Rat.floor` (definitionally `q.num / q.den`) is used rather than the
`⌊⋅⌋` notation so that closed instances evaluate by `rfl`. -/
def rhe (q : ℚ) : Int :=
  if q - (q.floor : ℚ) < 0.5 then q.floor
  else if 0.5 < q - (q.floor : ℚ) then q.floor + 1
  else if q.floor % 2 = 0 then q.floor else q.floor + 1

theorem ratFloor_eq (q : ℚ) : q.floor = ⌊q⌋ := by
  rw [Rat.floor_def', Rat.floor_def]

theorem rhe_eq_floorRing (q : ℚ) :
    rhe q =
      if q - (⌊q⌋ : ℚ) < 0.5 then ⌊q⌋
      else if 0.5 < q - (⌊q⌋ : ℚ) then ⌊q⌋ + 1
      else if ⌊q⌋ % 2 = 0 then ⌊q⌋ else ⌊q⌋ + 1 := by
  unfold rhe
  rw [ratFloor_eq]

/-- `round(q, 2)`: round to two decimal places, ties to even. -/
def round2 (q : ℚ) : ℚ := (rhe (q * 100) : ℚ) / 100

theorem rhe_intCast (n : Int) : rhe (n : ℚ) = n := by
  rw [rhe_eq_floorRing]
  norm_num

theorem rhe_ge_floor (q : ℚ) : ⌊q⌋ ≤ rhe q := by
  rw [rhe_eq_floorRing]
  split
  · omega
  split
  · omega
  split <;> omega

theorem rhe_le_of_le {q : ℚ} {m : Int} (h : q ≤ (m : ℚ)) : rhe q ≤ m := by
  have hf : ⌊q⌋ ≤ m := by
    have := Int.floor_le_floor h
    simpa using this
  by_cases hle : ⌊q⌋ ≤ m - 1
  · rw [rhe_eq_floorRing]
    split
    · omega
    split
    · omega
    split <;> omega
  · have hfm : ⌊q⌋ = m := by omega
    have hr : q - (⌊q⌋ : ℚ) ≤ 0 := by
      rw [hfm]; linarith
    have hcond : q - (⌊q⌋ : ℚ) < 0.5 := by linarith
    rw [rhe_eq_floorRing, if_pos hcond]
    omega

theorem round2_bounds {q : ℚ} (h0 : 0 ≤ q) (h1 : q ≤ 0.95) :
    0 ≤ round2 q ∧ round2 q ≤ 0.95 := by
  unfold round2
  have hl : (0 : Int) ≤ rhe (q * 100) :=
    le_trans (Int.floor_nonneg.mpr (by positivity)) (rhe_ge_floor _)
  have hu : rhe (q * 100) ≤ 95 := by
    apply rhe_le_of_le
    push_cast
    linarith
  constructor
  · positivity
  · rw [div_le_iff₀ (by norm_num : (0 : ℚ) < 100)]
    have hq : (rhe (q * 100) : ℚ) ≤ 95 := by exact_mod_cast hu
    linarith

theorem round2_idem (q : ℚ) : round2 (round2 q) = round2 q := by
  unfold round2
  rw [div_mul_cancel₀ _ (by norm_num : (100 : ℚ) ≠ 0), rhe_intCast]

theorem clamp095_bounds (q : ℚ) : 0 ≤ clamp095 q ∧ clamp095 q ≤ 0.95 := by
  unfold clamp095
  constructor
  · exact le_max_left 0 _
  · rcases max_cases 0 (min 0.95 q) with ⟨h, _⟩ | ⟨h, _⟩ <;> rw [h]
    · norm_num
    · exact min_le_left _ _

/-! ### A model of `json.loads`

An executable recursive-descent parser for the JSON grammar accepted by
Python's `json` module on the inputs in scope.  (`NaN`/`Infinity` literals
and `\u` surrogate pairs are not modelled; fuel exhaustion and these
corners surface as decode failures, which the caller treats the same way
as any malformed payload.) -/

/-- Skip JSON insignificant whitespace. -/
def skipWs : List Char → List Char
  | [] => []
  | c :: cs => if c = ' ' ∨ c = '\t' ∨ c = '\n' ∨ c = '\r' then skipWs cs else c :: cs

/-- Split a leading run of ASCII digits off a character list. -/
def readDigits : List Char → List Char × List Char
  | [] => ([], [])
  | c :: cs =>
    if c.isDigit then
      let (ds, r) := readDigits cs
      (c :: ds, r)
    else ([], c :: cs)

/-- Numeric value of a digit run. -/
def digitsVal (ds : List Char) : Nat :=
  ds.foldl (fun a c => a * 10 + (c.toNat - 48)) 0

/-- Value of one hexadecimal digit. -/
def hexVal (c : Char) : Option Nat :=
  if c.isDigit then some (c.toNat - 48)
  else if 'a' ≤ c ∧ c ≤ 'f' then some (c.toNat - 87)
  else if 'A' ≤ c ∧ c ≤ 'F' then some (c.toNat - 55)
  else Option.none

/-- Parse the body of a JSON string (the opening quote already consumed),
with the usual escapes; strict mode rejects raw control characters. -/
def parseStrBody : Nat → List Char → List Char → Option (String × List Char)
  | 0, _, _ => Option.none
  | fuel + 1, acc, cs =>
    match cs with
    | [] => Option.none
    | c :: rest =>
      if c = '"' then some (String.mk acc.reverse, rest)
      else if c = '\\' then
        match rest with
        | [] => Option.none
        | e :: rest2 =>
          if e = '"' then parseStrBody fuel ('"' :: acc) rest2
          else if e = '\\' then parseStrBody fuel ('\\' :: acc) rest2
          else if e = '/' then parseStrBody fuel ('/' :: acc) rest2
          else if e = 'b' then parseStrBody fuel (Char.ofNat 8 :: acc) rest2
          else if e = 'f' then parseStrBody fuel (Char.ofNat 12 :: acc) rest2
          else if e = 'n' then parseStrBody fuel ('\n' :: acc) rest2
          else if e = 'r' then parseStrBody fuel ('\r' :: acc) rest2
          else if e = 't' then parseStrBody fuel ('\t' :: acc) rest2
          else if e = 'u' then
            match rest2 with
            | h1 :: h2 :: h3 :: h4 :: rest3 =>
              match hexVal h1, hexVal h2, hexVal h3, hexVal h4 with
              | some a, some b, some c3, some d =>
                parseStrBody fuel (Char.ofNat (((a * 16 + b) * 16 + c3) * 16 + d) :: acc) rest3
              | _, _, _, _ => Option.none
            | _ => Option.none
          else Option.none
      else if c.toNat < 32 then Option.none
      else parseStrBody fuel (c :: acc) rest

/-- Parse a JSON number token (RFC 8259 grammar, as Python's scanner
tokenizes it): integer part without leading zeros, optional fraction,
optional exponent.  Distinguishes `int` from `float` like Python does. -/
def parseNumber (cs : List Char) : Option (PyVal × List Char) :=
  let (neg, cs1) :=
    match cs with
    | c :: r => if c = '-' then (true, r) else (false, cs)
    | [] => (false, ([] : List Char))
  match readDigits cs1 with
  | ([], _) => Option.none
  | (ds0, r0) =>
    let (ds, r1) :=
      if ds0.head? = some '0' then (['0'], ds0.drop 1 ++ r0) else (ds0, r0)
    let ipart : Nat := digitsVal ds
    let (fs, r2) :=
      match r1 with
      | c :: c2 :: r => if c = '.' ∧ c2.isDigit then readDigits (c2 :: r) else ([], r1)
      | _ => ([], r1)
    let (hasExp, exNeg, es, r3) :=
      match r2 with
      | c :: rest =>
        if c = 'e' ∨ c = 'E' then
          match rest with
          | sc :: rest2 =>
            if sc = '+' ∨ sc = '-' then
              match readDigits rest2 with
              | ([], _) => (false, false, ([] : List Char), r2)
              | (es', r') => (true, decide (sc = '-'), es', r')
            else
              match readDigits rest with
              | ([], _) => (false, false, ([] : List Char), r2)
              | (es', r') => (true, false, es', r')
          | [] => (false, false, ([] : List Char), r2)
        else (false, false, ([] : List Char), r2)
      | [] => (false, false, ([] : List Char), r2)
    if fs.isEmpty ∧ ¬hasExp then
      some (PyVal.int (if neg then -(ipart : Int) else (ipart : Int)), r1)
    else
      let base : ℚ := (ipart : ℚ) + (digitsVal fs : ℚ) / (10 : ℚ) ^ fs.length
      let expv : Int := if exNeg then -(digitsVal es : Int) else (digitsVal es : Int)
      let mag : ℚ := base * (10 : ℚ) ^ expv
      some (PyVal.float (if neg then -mag else mag), r3)

mutual

/-- Parse one JSON value, skipping leading whitespace. -/
def parseVal : Nat → List Char → Option (PyVal × List Char)
  | 0, _ => Option.none
  | fuel + 1, cs =>
    match skipWs cs with
    | [] => Option.none
    | c :: rest =>
      if c = lbrace then
        match skipWs rest with
        | d :: r => if d = rbrace then some (PyVal.dict [], r) else parseObj fuel (d :: r) []
        | [] => Option.none
      else if c = '[' then
        match skipWs rest with
        | d :: r => if d = ']' then some (PyVal.list [], r) else parseArr fuel (d :: r) []
        | [] => Option.none
      else if c = '"' then
        match parseStrBody (rest.length + 1) [] rest with
        | some (s, r) => some (PyVal.str s, r)
        | Option.none => Option.none
      else if c = 't' then
        match rest with
        | 'r' :: 'u' :: 'e' :: r => some (PyVal.bool true, r)
        | _ => Option.none
      else if c = 'f' then
        match rest with
        | 'a' :: 'l' :: 's' :: 'e' :: r => some (PyVal.bool false, r)
        | _ => Option.none
      else if c = 'n' then
        match rest with
        | 'u' :: 'l' :: 'l' :: r => some (PyVal.none, r)
        | _ => Option.none
      else parseNumber (c :: rest)

/-- Parse the members of a JSON object (positioned at a key, past
whitespace); duplicate keys overwrite like repeated dict assignment. -/
def parseObj : Nat → List Char → PyDict → Option (PyVal × List Char)
  | 0, _, _ => Option.none
  | fuel + 1, cs, acc =>
    match cs with
    | c :: rest =>
      if c = '"' then
        match parseStrBody (rest.length + 1) [] rest with
        | some (key, r1) =>
          match skipWs r1 with
          | ':' :: r2 =>
            match parseVal fuel r2 with
            | some (v, r3) =>
              match skipWs r3 with
              | ',' :: r4 => parseObj fuel (skipWs r4) (dictSet acc key v)
              | d :: r4 =>
                if d = rbrace then some (PyVal.dict (dictSet acc key v), r4)
                else Option.none
              | [] => Option.none
            | Option.none => Option.none
          | _ => Option.none
        | Option.none => Option.none
      else Option.none
    | [] => Option.none

/-- Parse the elements of a JSON array (positioned at a value). -/
def parseArr : Nat → List Char → List PyVal → Option (PyVal × List Char)
  | 0, _, _ => Option.none
  | fuel + 1, cs, acc =>
    match parseVal fuel cs with
    | some (v, r1) =>
      match skipWs r1 with
      | ',' :: r2 => parseArr fuel r2 (v :: acc)
      | d :: r2 => if d = ']' then some (PyVal.list (v :: acc).reverse, r2) else Option.none
      | [] => Option.none
    | Option.none => Option.none

end

/-- `json.loads`: parse a complete JSON document; trailing non-whitespace
or any syntax error raises (here: `.error`). -/
def jsonLoads (s : String) : Except Unit PyVal :=
  match parseVal (s.length * 4 + 16) s.data with
  | some (v, rest) => if (skipWs rest).isEmpty then Except.ok v else Except.error ()
  | Option.none => Except.error ()

/-- Return the suffix starting at the first occurrence of `c`, if any. -/
def dropUntilCh (c : Char) : List Char → Option (List Char)
  | [] => Option.none
  | x :: xs => if x = c then some (x :: xs) else dropUntilCh c xs

/-- The span matched by `re.search(r"\x7b.*\x7d", s, flags=re.DOTALL)`:
from the first opening brace to the last closing brace of the string
(the `.*` is greedy and `DOTALL` lets it cross newlines). -/
def extractBrace (s : String) : Option String :=
  match dropUntilCh lbrace s.data with
  | Option.none => Option.none
  | some suff =>
    match dropUntilCh rbrace suff.reverse with
    | Option.none => Option.none
    | some revSeg => some (String.mk revSeg.reverse)

/-! ### A model of `float(x)` -/

/-- Whitespace stripped by `float(str)`. -/
def pyWsCh (c : Char) : Bool :=
  c = ' ' ∨ c = '\t' ∨ c = '\n' ∨ c = '\r' ∨ c = Char.ofNat 11 ∨ c = Char.ofNat 12

/-- Parse a Python float literal string: optional sign, digits with
optional fraction and exponent, surrounding whitespace allowed.  The
`inf`/`nan` spellings and digit underscores are modelled as failures
(see the file header). -/
def parseFloatStr (s : String) : Option ℚ :=
  let cs := ((s.data.dropWhile pyWsCh).reverse.dropWhile pyWsCh).reverse
  let (neg, cs1) :=
    match cs with
    | c :: r =>
      if c = '-' then (true, r) else if c = '+' then (false, r) else (false, cs)
    | [] => (false, ([] : List Char))
  let (ds, r1) := readDigits cs1
  let (fs, r2) :=
    match r1 with
    | c :: r => if c = '.' then readDigits r else (([] : List Char), r1)
    | [] => (([] : List Char), r1)
  if ds.isEmpty ∧ fs.isEmpty then Option.none
  else
    let (expOk, exNeg, es, r3) :=
      match r2 with
      | c :: rest =>
        if c = 'e' ∨ c = 'E' then
          match rest with
          | sc :: rest2 =>
            if sc = '+' ∨ sc = '-' then
              let (es', r') := readDigits rest2
              (!es'.isEmpty, decide (sc = '-'), es', r')
            else
              let (es', r') := readDigits rest
              (!es'.isEmpty, false, es', r')
          | [] => (false, false, ([] : List Char), r2)
        else (true, false, ([] : List Char), r2)
      | [] => (true, false, ([] : List Char), r2)
    if expOk ∧ r3.isEmpty then
      let base : ℚ := (digitsVal ds : ℚ) + (digitsVal fs : ℚ) / (10 : ℚ) ^ fs.length
      let ex : Int := if exNeg then -(digitsVal es : Int) else (digitsVal es : Int)
      some ((if neg then (-1 : ℚ) else 1) * base * (10 : ℚ) ^ ex)
    else Option.none

/-- `float(x)` on an embedded value; raises (`.error`) on values `float`
rejects.  `isinstance(x, (int, float))` in the source also accepts `bool`
(a subclass of `int`), mirrored here. -/
def pyFloat : PyVal → Except Unit ℚ
  | PyVal.int n => Except.ok (n : ℚ)
  | PyVal.float q => Except.ok q
  | PyVal.bool b => Except.ok (if b then 1 else 0)
  | PyVal.str s =>
    match parseFloatStr s with
    | some q => Except.ok q
    | Option.none => Except.error ()
  | _ => Except.error ()

/-! ### `classifier.safe_parse_model_output` -/

/-- The closed category vocabulary (`allowed` in the source). -/
def allowedCategories : List String :=
  ["Unreleased Earnings/Guidance", "M&A/Transactions", "Executive Changes",
   "Product Launch/Strategic Plans", "Legal/Regulatory Investigations",
   "Insider Trading Risk", "Confidential Financial Projections", "None"]

/-- `data.get("mnpi") in ("yes", "no", "unclear")`. -/
def mnpiValid : Option PyVal → Bool
  | some (PyVal.str s) => s = "yes" ∨ s = "no" ∨ s = "unclear"
  | _ => false

/-- `isinstance(x, list)`. -/
def isListVal : Option PyVal → Bool
  | some (PyVal.list _) => true
  | _ => false

/-- `isinstance(x, (int, float))`; `bool` is a subclass of `int` in Python,
so boolean confidences pass this check. -/
def confIsNum : Option PyVal → Bool
  | some (PyVal.int _) => true
  | some (PyVal.float _) => true
  | some (PyVal.bool _) => true
  | _ => false

/-- Numeric value of an `int`/`float`/`bool`; other constructors are
unreachable at every call site (the value was just checked or written). -/
def numToQ : PyVal → ℚ
  | PyVal.int n => (n : ℚ)
  | PyVal.float q => q
  | PyVal.bool b => if b then 1 else 0
  | _ => 0

/-- Whether the optional value is exactly the given string. -/
def isStrEq : Option PyVal → String → Bool
  | some (PyVal.str t), s => t = s
  | _, _ => false

/-- `x in ("low", "medium", "high")`. -/
def riskValid : Option PyVal → Bool
  | some (PyVal.str s) => s = "low" ∨ s = "medium" ∨ s = "high"
  | _ => false

/-- `x in ("escalate", "human_review", "no_action")`. -/
def actValid : Option PyVal → Bool
  | some (PyVal.str s) => s = "escalate" ∨ s = "human_review" ∨ s = "no_action"
  | _ => false

/-- String stored under a key; the default is unreachable at call sites
(the key was just validated or written as a string). -/
def getStrD (d : PyDict) (k : String) : String :=
  match pyGet d k with
  | some (PyVal.str s) => s
  | _ => ""

/-- List stored under a key; the default is unreachable at call sites. -/
def listOf : Option PyVal → List PyVal
  | some (PyVal.list l) => l
  | _ => []

/-- `[c for c in data["categories"] if c in allowed]`: membership in the
`allowed` *set* hashes each element first, so an unhashable element (a
list or dict) raises `TypeError`; hashable non-strings compare unequal to
every vocabulary entry and are dropped. -/
def catFilter : List PyVal → Except Unit (List PyVal)
  | [] => Except.ok []
  | c :: cs =>
    match c with
    | PyVal.list _ => Except.error ()
    | PyVal.dict _ => Except.error ()
    | PyVal.str s => do
      let r ← catFilter cs
      Except.ok (if s ∈ allowedCategories then PyVal.str s :: r else r)
    | _ => catFilter cs

/-- `data["confidence"]` as a rational, after it is known numeric. -/
def confOf (d : PyDict) : ℚ := numToQ ((pyGet d "confidence").getD (PyVal.float 0))

/-- `if data.get("mnpi") not in ("yes", "no", "unclear"): data["mnpi"] =
"unclear"` (`classifier.py` lines 77–78). -/
def stepMnpi (d : PyDict) : PyDict :=
  if mnpiValid (pyGet d "mnpi") then d else dictSet d "mnpi" (PyVal.str "unclear")

/-- `if not isinstance(data.get("categories"), list): data["categories"] =
["None"]` (lines 80–81). -/
def stepCatsType (d : PyDict) : PyDict :=
  if isListVal (pyGet d "categories") then d
  else dictSet d "categories" (PyVal.list [PyVal.str "None"])

/-- The `try: data["confidence"] = float(data.get("confidence", 0.0))
except: data["confidence"] = 0.0` coercion, run only when the stored value
is not already numeric (lines 83–88). -/
def stepConfCoerce (d : PyDict) : PyDict :=
  if confIsNum (pyGet d "confidence") then d
  else
    dictSet d "confidence" (PyVal.float
      (match pyFloat ((pyGet d "confidence").getD (PyVal.float 0)) with
       | Except.ok q => q
       | Except.error _ => 0))

/-- `data["confidence"] = round(max(0.0, min(0.95, float(data["confidence"]))), 2)`
(line 91). -/
def stepConfClamp (d : PyDict) : PyDict :=
  dictSet d "confidence" (PyVal.float (round2 (clamp095 (confOf d))))

/-- The low-confidence-yes override (lines 93–96); at this point
`data["confidence"]` holds the clamped, rounded value. -/
def stepOverride (d : PyDict) : PyDict :=
  if isStrEq (pyGet d "mnpi") "yes" = true ∧ confOf d < 0.5 then
    dictSet (dictSet d "mnpi" (PyVal.str "unclear"))
      "recommended_action" (PyVal.str "human_review")
  else d

/-- The category vocabulary filter and `["None"]` backstop (lines 99–105);
raises when a category element is unhashable. -/
def stepCatFilter (d : PyDict) : Except Unit PyDict :=
  match catFilter (listOf (pyGet d "categories")) with
  | Except.error _ => Except.error ()
  | Except.ok cats =>
    Except.ok (dictSet d "categories"
      (PyVal.list (if cats.isEmpty then [PyVal.str "None"] else cats)))

/-- The `risk_level` sanity derivation from confidence (lines 107–114). -/
def stepRisk (d : PyDict) : PyDict :=
  if riskValid (pyGet d "risk_level") then d
  else
    dictSet d "risk_level" (PyVal.str
      (if 0.75 ≤ confOf d then "high" else if 0.5 ≤ confOf d then "medium" else "low"))

/-- The `recommended_action` sanity derivation (lines 116–122). -/
def stepAction (d : PyDict) : PyDict :=
  if actValid (pyGet d "recommended_action") then d
  else
    dictSet d "recommended_action" (PyVal.str
      (if getStrD d "risk_level" = "high" then "escalate"
       else if getStrD d "mnpi" = "unclear" ∨ getStrD d "risk_level" = "medium" then
         "human_review"
       else "no_action"))

/-- The field-validation tail of `safe_parse_model_output`
(`classifier.py` lines 76–125), applied to the decoded JSON object: the
sequence of in-place mutations above, in source order. -/
def normalizeDict (data0 : PyDict) : Except Unit PyDict :=
  match stepCatFilter (stepOverride (stepConfClamp (stepConfCoerce (stepCatsType
      (stepMnpi data0))))) with
  | Except.error _ => Except.error ()
  | Except.ok d6 => Except.ok (stepAction (stepRisk d6))

/-- Fallback when no JSON-looking substring is found. -/
def noJsonRecord : PyDict :=
  [("mnpi", PyVal.str "unclear"),
   ("categories", PyVal.list [PyVal.str "None"]),
   ("confidence", PyVal.float 0.0),
   ("evidence_summary", PyVal.str "No valid JSON returned"),
   ("risk_level", PyVal.str "low"),
   ("recommended_action", PyVal.str "human_review"),
   ("notes", PyVal.str "Model did not return JSON")]

/-- Fallback when the extracted substring fails to decode. -/
def badJsonRecord : PyDict :=
  [("mnpi", PyVal.str "unclear"),
   ("categories", PyVal.list [PyVal.str "None"]),
   ("confidence", PyVal.float 0.0),
   ("evidence_summary", PyVal.str "Malformed JSON"),
   ("risk_level", PyVal.str "low"),
   ("recommended_action", PyVal.str "human_review"),
   ("notes", PyVal.str "JSON parse error")]

/-- `safe_parse_model_output` (`classifier.py` lines 50–125).  A decoded
value from a brace-delimited substring is necessarily a JSON object, so
the non-dict arm is unreachable. -/
def safe_parse_model_output (response_text : String) : Except Unit PyDict :=
  match extractBrace response_text with
  | Option.none => Except.ok noJsonRecord
  | some sub =>
    match jsonLoads sub with
    | Except.error _ => Except.ok badJsonRecord
    | Except.ok (PyVal.dict d) => normalizeDict d
    | Except.ok _ => Except.error ()

/-! ### `analyzer._normalize_classify_output` -/

/-- Final fallback of `_normalize_classify_output`. -/
def normalizeFallbackRecord : PyDict :=
  [("mnpi", PyVal.str "unclear"),
   ("categories", PyVal.list [PyVal.str "None"]),
   ("confidence", PyVal.float 0.0),
   ("evidence_summary", PyVal.str "Could not parse model output"),
   ("risk_level", PyVal.str "low"),
   ("recommended_action", PyVal.str "human_review"),
   ("notes", PyVal.str "Normalization fallback used")]

/-- `_normalize_classify_output` (`analyzer.py` lines 7–52).  A structured
mapping is returned unchanged; a string is decoded (whole, then the first
brace span) and the decoded value — whatever its shape — is returned;
anything else falls back.  (`bytes` payloads and objects with a `.content`
attribute are outside the embedded value domain.) -/
def normalizeClassifyOutput : PyVal → PyVal
  | PyVal.dict d => PyVal.dict d
  | PyVal.str raw =>
    match jsonLoads raw with
    | Except.ok v => v
    | Except.error _ =>
      match extractBrace raw with
      | some sub =>
        match jsonLoads sub with
        | Except.ok v => v
        | Except.error _ => PyVal.dict normalizeFallbackRecord
      | Option.none => PyVal.dict normalizeFallbackRecord
  | _ => PyVal.dict normalizeFallbackRecord

/-! ### `classifier.classify_chunk`

The model invoker (`llm.invoke`) is an external collaborator: it is passed
in as a function from the call number (0-based: the loop's attempts first,
then the verifier call) to either a response string or a raised error's
text.  The prompt strings and the `time.sleep` delays do not influence the
returned record and are not modelled. -/

/-- Error text of the `TypeError` raised inside `safe_parse_model_output`
on an unhashable category element; the exact wording is irrelevant to
every theorem below. -/
def parseRaiseText : String := "unhashable type: 'list'"

/-- Outcome of the `for attempt in range(1, max_retries + 1)` loop. -/
inductive LoopOut where
  | accepted (record : PyDict) : LoopOut
  | terminalError (e : String) : LoopOut
  | fallthrough (last : String) : LoopOut

/-- The attempt loop: `idx` is the 0-based call number, `rem` the number
of attempts left, and the third argument `last_response_text`. -/
def runAttempts (invoker : Nat → Except String String) :
    Nat → Nat → String → LoopOut
  | _, 0, last => LoopOut.fallthrough last
  | idx, rem + 1, _ =>
    match invoker idx with
    | Except.ok resp =>
      match safe_parse_model_output resp with
      | Except.ok parsed =>
        if 0.75 ≤ confOf parsed ∨ isStrEq (pyGet parsed "mnpi") "no" = true then
          LoopOut.accepted parsed
        else if rem = 0 then LoopOut.fallthrough resp
        else runAttempts invoker (idx + 1) rem resp
      | Except.error _ =>
        if rem = 0 then LoopOut.terminalError parseRaiseText
        else runAttempts invoker (idx + 1) rem ("ERROR: " ++ parseRaiseText)
    | Except.error e =>
      if rem = 0 then LoopOut.terminalError e
      else runAttempts invoker (idx + 1) rem ("ERROR: " ++ e)

/-- Terminal record returned when the final attempt raised. -/
def llmErrorRecord (e : String) : PyDict :=
  [("mnpi", PyVal.str "unclear"),
   ("categories", PyVal.list [PyVal.str "None"]),
   ("confidence", PyVal.float 0.0),
   ("evidence_summary", PyVal.str "LLM error"),
   ("risk_level", PyVal.str "low"),
   ("recommended_action", PyVal.str "human_review"),
   ("notes", PyVal.str ("LLM error after retries: " ++ e))]

/-- `x.get(k) or y.get(k)`: the first value when truthy, else the second
(both `.get` calls default to `None`). -/
def pyOrElse (a b : Option PyVal) : PyVal :=
  let av := a.getD PyVal.none
  if pyTruthy av then av else b.getD PyVal.none

/-- Construction of the merged `final` record in the verifier branch
(`classifier.py` lines 183–199), before the post-processing override.
Direct subscripts (`parsed["mnpi"]`, `verifier_parsed["categories"]`,
`parsed["categories"]`) are modelled with defaults that are unreachable
for records produced by `safe_parse_model_output`. -/
def mergeConf (parsed vparsed : PyDict) : ℚ := min (confOf parsed) (confOf vparsed)

/-- `final_mnpi` of the verifier merge: prefer `unclear`, demote a
`yes`-then-`no` conflict to `unclear`, otherwise keep the first pass's
verdict (`classifier.py` lines 186–192). -/
def mergeMnpi (parsed vparsed : PyDict) : String :=
  if getStrD vparsed "mnpi" = "unclear" ∨ getStrD parsed "mnpi" = "unclear" then "unclear"
  else if getStrD vparsed "mnpi" = "no" ∧ getStrD parsed "mnpi" = "yes" then "unclear"
  else getStrD parsed "mnpi"

/-- `verifier_parsed["categories"] if verifier_parsed.get("categories")
else parsed["categories"]` (line 193). -/
def mergeCats (parsed vparsed : PyDict) : PyVal :=
  if pyTruthy ((pyGet vparsed "categories").getD PyVal.none) then
    (pyGet vparsed "categories").getD PyVal.none
  else (pyGet parsed "categories").getD PyVal.none

def verifierMerge (parsed vparsed : PyDict) : PyDict :=
  [("mnpi", PyVal.str (mergeMnpi parsed vparsed)),
   ("categories", mergeCats parsed vparsed),
   ("confidence", PyVal.float (round2 (clamp095 (mergeConf parsed vparsed)))),
   ("evidence_summary", pyOrElse (pyGet vparsed "evidence_summary") (pyGet parsed "evidence_summary")),
   ("risk_level", pyOrElse (pyGet vparsed "risk_level") (pyGet parsed "risk_level")),
   ("recommended_action", pyOrElse (pyGet vparsed "recommended_action") (pyGet parsed "recommended_action")),
   ("notes", pyOrElse (pyGet vparsed "notes") (pyGet parsed "notes"))]

/-- Post-processing override on the merged record (`classifier.py`
lines 203–205). -/
def applyFinalOverride (f : PyDict) : PyDict :=
  if isStrEq (pyGet f "mnpi") "yes" = true ∧ confOf f < 0.5 then
    dictSet (dictSet f "mnpi" (PyVal.str "unclear"))
      "recommended_action" (PyVal.str "human_review")
  else f

/-- The merged record the verifier branch returns on success. -/
def verifierFinal (parsed vparsed : PyDict) : PyDict :=
  applyFinalOverride (verifierMerge parsed vparsed)

/-- The `except` handler of the verifier `try`: mark for human review and
append to the notes.  `(parsed.get("notes") or "") + " | verifier failed"`
raises `TypeError` when the notes value is truthy but not a string, and an
exception inside this handler propagates out of `classify_chunk`. -/
def verifierFailFallback (parsed : PyDict) : Except Unit PyDict :=
  let p1 := dictSet parsed "recommended_action" (PyVal.str "human_review")
  let nv := (pyGet p1 "notes").getD PyVal.none
  if pyTruthy nv then
    match nv with
    | PyVal.str s => Except.ok (dictSet p1 "notes" (PyVal.str (s ++ " | verifier failed")))
    | _ => Except.error ()
  else Except.ok (dictSet p1 "notes" (PyVal.str " | verifier failed"))

/-- `classify_chunk` (`classifier.py` lines 128–214).  `max_retries` is a
Python int, so the loop `range(1, max_retries + 1)` runs
`max(0, max_retries)` times.  The re-parse of `last_response_text` after
the loop happens outside any `try`, so a raise there (`.error`) would
propagate to the caller. -/
def classify_chunk (invoker : Nat → Except String String) (chunk : String)
    (max_retries : Int) : Except Unit PyDict :=
  let n := max_retries.toNat
  match runAttempts invoker 0 n "" with
  | LoopOut.accepted d => Except.ok d
  | LoopOut.terminalError e => Except.ok (llmErrorRecord e)
  | LoopOut.fallthrough last =>
    match safe_parse_model_output last with
    | Except.error _ => Except.error ()
    | Except.ok parsed =>
      if 0.4 ≤ confOf parsed ∧ confOf parsed < 0.75 then
        match invoker n with
        | Except.error _ => verifierFailFallback parsed
        | Except.ok vtext =>
          match safe_parse_model_output vtext with
          | Except.error _ => verifierFailFallback parsed
          | Except.ok vparsed => Except.ok (verifierFinal parsed vparsed)
      else Except.ok parsed

/-! ### `aggregator.aggregate_results` -/

/-- One entry of the `normalized` list built by `aggregate_results`. -/
structure AggRec where
  mnpi : PyVal
  categories : List PyVal
  confidence : ℚ
  evidence_summary : PyVal
  recommended_action : PyVal

/-- The defensive per-entry normalization (`aggregator.py` lines 16–23).
`float(r.get("confidence", 0.0)) if r.get("confidence") is not None else
0.0` raises for a value `float` rejects — there is no `try` here, unlike
the classifier's coercion. -/
def aggNormEntry (r : PyDict) : Except Unit AggRec := do
  let conf ←
    match (pyGet r "confidence").getD PyVal.none with
    | PyVal.none => Except.ok (0 : ℚ)
    | v => pyFloat v
  Except.ok
    { mnpi := (pyGet r "mnpi").getD (PyVal.str "unclear"),
      categories :=
        (match pyGet r "categories" with
         | some (PyVal.list l) => l
         | _ => [PyVal.str "None"]),
      confidence := conf,
      evidence_summary := (pyGet r "evidence_summary").getD (PyVal.str ""),
      recommended_action := (pyGet r "recommended_action").getD (PyVal.str "human_review") }

/-- The normalization loop: non-dict entries are skipped (`continue`);
a raising entry aborts the whole call. -/
def aggNormalize : List PyVal → Except Unit (List AggRec)
  | [] => Except.ok []
  | r :: rest =>
    match r with
    | PyVal.dict d => do
      let a ← aggNormEntry d
      let l ← aggNormalize rest
      Except.ok (a :: l)
    | _ => aggNormalize rest

/-- Hashable values (admissible as `set` elements). -/
def hashableTag : PyVal → Bool
  | PyVal.list _ => false
  | PyVal.dict _ => false
  | _ => true

/-- `for r in mnpi_flags: for c in r["categories"]: categories_set.add(c)`;
adding an unhashable element raises `TypeError`. -/
def collectTags : List AggRec → Except Unit (List PyVal)
  | [] => Except.ok []
  | r :: rest =>
    if r.categories.all hashableTag then do
      let t ← collectTags rest
      Except.ok (r.categories ++ t)
    else Except.error ()

/-- Python `==` on hashable scalars: numeric types compare by value
(`True == 1 == 1.0`), strings by content, `None` only to itself. -/
def numQv : PyVal → Option ℚ
  | PyVal.bool b => some (if b then 1 else 0)
  | PyVal.int n => some (n : ℚ)
  | PyVal.float q => some q
  | _ => Option.none

/-- Equality used by `set` membership for the hashable values in scope. -/
def pyEqH (a b : PyVal) : Bool :=
  match a, b with
  | PyVal.none, PyVal.none => true
  | PyVal.str x, PyVal.str y => x = y
  | _, _ =>
    match numQv a, numQv b with
    | some x, some y => x = y
    | _, _ => false

/-- The set of collected tags, as the list of first occurrences. -/
def dedupBy : List PyVal → List PyVal
  | [] => []
  | x :: xs => x :: dedupBy (xs.filter (fun y => !pyEqH x y))
termination_by l => l.length
decreasing_by
  simp only [List.length_cons]
  exact Nat.lt_succ_of_le (List.length_filter_le _ _)

/-- Insert into a `≤`-sorted list of strings. -/
def insertLeStr (s : String) : List String → List String
  | [] => [s]
  | t :: ts => if s ≤ t then s :: t :: ts else t :: insertLeStr s ts

/-- Sort strings ascending (Python `sorted` compares code points). -/
def sortStrs : List String → List String
  | [] => []
  | s :: ss => insertLeStr s (sortStrs ss)

/-- Insert a numeric value into a list sorted by numeric key. -/
def insertByQ (x : PyVal) : List PyVal → List PyVal
  | [] => [x]
  | y :: ys =>
    if (numQv x).getD 0 ≤ (numQv y).getD 0 then x :: y :: ys else y :: insertByQ x ys

/-- Sort numeric values ascending by value. -/
def sortByQ : List PyVal → List PyVal
  | [] => []
  | x :: xs => insertByQ x (sortByQ xs)

/-- The string payload, when the value is a string. -/
def strOf : PyVal → Option String
  | PyVal.str s => some s
  | _ => Option.none

/-- `sorted(l)` on deduplicated hashable tags: fine for at most one
element, for all-string input and for all-numeric input; a remaining
mixed-type (or `None`-with-others) set makes a comparison raise
`TypeError`. -/
def pySortedTags (l : List PyVal) : Except Unit (List PyVal) :=
  if l.length ≤ 1 then Except.ok l
  else if l.all (fun c => (strOf c).isSome) then
    Except.ok ((sortStrs (l.filterMap strOf)).map PyVal.str)
  else if l.all (fun c => (numQv c).isSome) then Except.ok (sortByQ l)
  else Except.error ()

/-- The document-level summary record. -/
structure DocSummary where
  overall_mnpi : String
  categories : List PyVal
  overall_confidence : ℚ
  reason : String
  recommended_action : String

/-- `max` of a list of rationals, `0.0` for the empty list (the source
passes `default=0.0` in the unflagged branch; in the flagged branch the
list is nonempty, so the default is unreachable). -/
def maxConfD : List ℚ → ℚ
  | [] => 0
  | x :: xs => xs.foldl max x

/-- `if categories_set == {"None"}: categories = [] else: categories =
sorted([c for c in categories_set if c != "None"])` (`aggregator.py`
lines 46–50), taking the set as its deduplicated member list. -/
def summCategories (tagSet : List PyVal) : Except Unit (List PyVal) :=
  if (match tagSet with
      | [PyVal.str s] => decide (s = "None")
      | _ => false) then
    Except.ok []
  else
    pySortedTags (tagSet.filter (fun c =>
      match c with
      | PyVal.str s => decide (s ≠ "None")
      | _ => true))

/-- The summary construction over the `normalized` list
(`aggregator.py` lines 26–61). -/
def summarize (normalized : List AggRec) : Except Unit DocSummary := do
  let flags := normalized.filter (fun r => isStrEq (some r.mnpi) "yes")
  if flags.isEmpty then
    let anyUnclear := normalized.any (fun r => isStrEq (some r.mnpi) "unclear")
    Except.ok
      { overall_mnpi := "no",
        categories := [],
        overall_confidence := round2 (maxConfD (normalized.map AggRec.confidence)),
        reason :=
          if anyUnclear then
            "No MNPI detected; some chunks marked unclear - human review recommended."
          else "No MNPI detected.",
        recommended_action := if anyUnclear then "human_review" else "no_action" }
  else do
    let tags ← collectTags flags
    let categories ← summCategories (dedupBy tags)
    let overall := round2 (maxConfD (flags.map AggRec.confidence))
    Except.ok
      { overall_mnpi := "yes",
        categories := categories,
        overall_confidence := overall,
        reason := "Detected MNPI in " ++ toString flags.length ++ " chunk(s).",
        recommended_action := if 0.75 ≤ overall then "escalate" else "human_review" }

/-- `aggregate_results` (`aggregator.py` lines 5–61): defensive
normalization followed by the summary construction. -/
def aggregate_results (results : List PyVal) : Except Unit DocSummary := do
  let normalized ← aggNormalize results
  summarize normalized

/-! ### Invariants of the normalizer -/

/-- A category element as stored after filtering: a vocabulary string. -/
def catOkB : PyVal → Bool
  | PyVal.str s => decide (s ∈ allowedCategories)
  | _ => false

/-- The five validated fields are present and inside their domains:
`mnpi` in its enum, `confidence` a float in `[0, 0.95]` fixed by
2-decimal rounding, `categories` a non-empty list of vocabulary strings,
`risk_level` and `recommended_action` in their enums. -/
def isNormalizedRec (d : PyDict) : Bool :=
  mnpiValid (pyGet d "mnpi") &&
  (match pyGet d "confidence" with
   | some (PyVal.float q) => decide (0 ≤ q ∧ q ≤ 0.95 ∧ round2 q = q)
   | _ => false) &&
  (match pyGet d "categories" with
   | some (PyVal.list l) => !l.isEmpty && l.all catOkB
   | _ => false) &&
  riskValid (pyGet d "risk_level") &&
  actValid (pyGet d "recommended_action")

/-- The confidence value the normalizer stores: the raw (or string-coerced)
value clamped to `[0, 0.95]` and rounded to 2 decimals. -/
def normalizedConfidence (data0 : PyDict) : ℚ :=
  round2 (clamp095 (confOf (stepConfCoerce (stepCatsType (stepMnpi data0)))))

theorem normalizedConfidence_props (data0 : PyDict) :
    0 ≤ normalizedConfidence data0 ∧ normalizedConfidence data0 ≤ 0.95 ∧
      round2 (normalizedConfidence data0) = normalizedConfidence data0 := by
  unfold normalizedConfidence
  obtain ⟨h1, h2⟩ := clamp095_bounds (confOf (stepConfCoerce (stepCatsType (stepMnpi data0))))
  obtain ⟨h3, h4⟩ := round2_bounds h1 h2
  exact ⟨h3, h4, round2_idem _⟩

theorem pyGet_stepMnpi_ne (d : PyDict) (k : String) (h : k ≠ "mnpi") :
    pyGet (stepMnpi d) k = pyGet d k := by
  unfold stepMnpi
  split
  · rfl
  · exact pyGet_dictSet_ne _ _ _ _ (Ne.symm h)

theorem pyGet_stepCatsType_ne (d : PyDict) (k : String) (h : k ≠ "categories") :
    pyGet (stepCatsType d) k = pyGet d k := by
  unfold stepCatsType
  split
  · rfl
  · exact pyGet_dictSet_ne _ _ _ _ (Ne.symm h)

theorem pyGet_stepConfCoerce_ne (d : PyDict) (k : String) (h : k ≠ "confidence") :
    pyGet (stepConfCoerce d) k = pyGet d k := by
  unfold stepConfCoerce
  split
  · rfl
  · exact pyGet_dictSet_ne _ _ _ _ (Ne.symm h)

theorem pyGet_stepConfClamp_ne (d : PyDict) (k : String) (h : k ≠ "confidence") :
    pyGet (stepConfClamp d) k = pyGet d k :=
  pyGet_dictSet_ne _ _ _ _ (Ne.symm h)

theorem pyGet_stepOverride_ne (d : PyDict) (k : String) (h1 : k ≠ "mnpi")
    (h2 : k ≠ "recommended_action") : pyGet (stepOverride d) k = pyGet d k := by
  unfold stepOverride
  split
  · rw [pyGet_dictSet_ne _ _ _ _ (Ne.symm h2), pyGet_dictSet_ne _ _ _ _ (Ne.symm h1)]
  · rfl

theorem pyGet_stepRisk_ne (d : PyDict) (k : String) (h : k ≠ "risk_level") :
    pyGet (stepRisk d) k = pyGet d k := by
  unfold stepRisk
  split
  · rfl
  · exact pyGet_dictSet_ne _ _ _ _ (Ne.symm h)

theorem pyGet_stepAction_ne (d : PyDict) (k : String) (h : k ≠ "recommended_action") :
    pyGet (stepAction d) k = pyGet d k := by
  unfold stepAction
  split
  · rfl
  · exact pyGet_dictSet_ne _ _ _ _ (Ne.symm h)

theorem stepMnpi_valid (d : PyDict) : mnpiValid (pyGet (stepMnpi d) "mnpi") = true := by
  unfold stepMnpi
  split
  · assumption
  · rw [pyGet_dictSet_self]
    rfl

theorem stepOverride_mnpiValid (d : PyDict) (h : mnpiValid (pyGet d "mnpi") = true) :
    mnpiValid (pyGet (stepOverride d) "mnpi") = true := by
  unfold stepOverride
  split
  · rw [pyGet_dictSet_ne _ _ _ _ (by decide), pyGet_dictSet_self]
    rfl
  · exact h

theorem stepConfClamp_get (d : PyDict) :
    pyGet (stepConfClamp d) "confidence" =
      some (PyVal.float (round2 (clamp095 (confOf d)))) :=
  pyGet_dictSet_self _ _ _

theorem stepRisk_valid (d : PyDict) : riskValid (pyGet (stepRisk d) "risk_level") = true := by
  unfold stepRisk
  split
  · assumption
  · rw [pyGet_dictSet_self]
    split
    · rfl
    split
    · rfl
    · rfl

theorem stepAction_valid (d : PyDict) :
    actValid (pyGet (stepAction d) "recommended_action") = true := by
  unfold stepAction
  split
  · assumption
  · rw [pyGet_dictSet_self]
    split
    · rfl
    split
    · rfl
    · rfl

theorem stepAction_of_valid (d : PyDict)
    (h : actValid (pyGet d "recommended_action") = true) : stepAction d = d := by
  unfold stepAction
  rw [if_pos h]

theorem catFilter_ok {l cats : List PyVal} (h : catFilter l = Except.ok cats) :
    cats.all catOkB = true := by
  induction l generalizing cats with
  | nil =>
    simp only [catFilter, Except.ok.injEq] at h
    subst h
    rfl
  | cons c cs ih =>
    cases c with
    | list es =>
      simp only [catFilter] at h
      cases h
    | dict es =>
      simp only [catFilter] at h
      cases h
    | str s =>
      simp only [catFilter, bind, Except.bind] at h
      cases hr : catFilter cs with
      | error e => rw [hr] at h; cases h
      | ok r =>
        rw [hr] at h
        simp only [Except.ok.injEq] at h
        subst h
        by_cases hs : s ∈ allowedCategories
        · rw [if_pos hs]
          simp only [List.all_cons, Bool.and_eq_true]
          exact ⟨by simpa [catOkB] using hs, ih hr⟩
        · rw [if_neg hs]
          exact ih hr
    | none => exact ih (by simpa only [catFilter] using h)
    | bool b => exact ih (by simpa only [catFilter] using h)
    | int n => exact ih (by simpa only [catFilter] using h)
    | float q => exact ih (by simpa only [catFilter] using h)

theorem stepCatFilter_ok {d d6 : PyDict} (h : stepCatFilter d = Except.ok d6) :
    ∃ L : List PyVal, d6 = dictSet d "categories" (PyVal.list L) ∧
      L ≠ [] ∧ L.all catOkB = true := by
  unfold stepCatFilter at h
  cases hcat : catFilter (listOf (pyGet d "categories")) with
  | error e => rw [hcat] at h; cases h
  | ok cats =>
    rw [hcat] at h
    simp only [Except.ok.injEq] at h
    refine ⟨if cats.isEmpty then [PyVal.str "None"] else cats, h.symm, ?_, ?_⟩
    · split
      · simp
      · next he => simpa [List.isEmpty_iff] using he
    · split
      · rfl
      · exact catFilter_ok hcat

theorem normalizeDict_ok {data0 d : PyDict} (h : normalizeDict data0 = Except.ok d) :
    isNormalizedRec d = true ∧
      pyGet d "confidence" = some (PyVal.float (normalizedConfidence data0)) := by
  unfold normalizeDict at h
  cases hcf : stepCatFilter (stepOverride (stepConfClamp (stepConfCoerce (stepCatsType
      (stepMnpi data0))))) with
  | error e => rw [hcf] at h; cases h
  | ok d6 =>
    rw [hcf] at h
    simp only [Except.ok.injEq] at h
    subst h
    obtain ⟨L, hd6, hL, hLall⟩ := stepCatFilter_ok hcf
    subst hd6
    have hmnpi5 : mnpiValid (pyGet (stepOverride (stepConfClamp (stepConfCoerce
        (stepCatsType (stepMnpi data0))))) "mnpi") = true := by
      apply stepOverride_mnpiValid
      rw [pyGet_stepConfClamp_ne _ _ (by decide), pyGet_stepConfCoerce_ne _ _ (by decide),
        pyGet_stepCatsType_ne _ _ (by decide)]
      exact stepMnpi_valid data0
    have hconf5 : pyGet (stepOverride (stepConfClamp (stepConfCoerce (stepCatsType
        (stepMnpi data0))))) "confidence" =
        some (PyVal.float (normalizedConfidence data0)) := by
      rw [pyGet_stepOverride_ne _ _ (by decide) (by decide)]
      exact stepConfClamp_get _
    -- the three remaining writes (`categories`, `risk_level`,
    -- `recommended_action`) leave `mnpi` and `confidence` in place
    have hmnpi : mnpiValid (pyGet (stepAction (stepRisk (dictSet (stepOverride
        (stepConfClamp (stepConfCoerce (stepCatsType (stepMnpi data0)))))
        "categories" (PyVal.list L)))) "mnpi") = true := by
      rw [pyGet_stepAction_ne _ _ (by decide), pyGet_stepRisk_ne _ _ (by decide),
        pyGet_dictSet_ne _ _ _ _ (by decide)]
      exact hmnpi5
    have hconf : pyGet (stepAction (stepRisk (dictSet (stepOverride
        (stepConfClamp (stepConfCoerce (stepCatsType (stepMnpi data0)))))
        "categories" (PyVal.list L)))) "confidence" =
        some (PyVal.float (normalizedConfidence data0)) := by
      rw [pyGet_stepAction_ne _ _ (by decide), pyGet_stepRisk_ne _ _ (by decide),
        pyGet_dictSet_ne _ _ _ _ (by decide)]
      exact hconf5
    have hcats : pyGet (stepAction (stepRisk (dictSet (stepOverride
        (stepConfClamp (stepConfCoerce (stepCatsType (stepMnpi data0)))))
        "categories" (PyVal.list L)))) "categories" = some (PyVal.list L) := by
      rw [pyGet_stepAction_ne _ _ (by decide), pyGet_stepRisk_ne _ _ (by decide)]
      exact pyGet_dictSet_self _ _ _
    have hrisk : riskValid (pyGet (stepAction (stepRisk (dictSet (stepOverride
        (stepConfClamp (stepConfCoerce (stepCatsType (stepMnpi data0)))))
        "categories" (PyVal.list L)))) "risk_level") = true := by
      rw [pyGet_stepAction_ne _ _ (by decide)]
      exact stepRisk_valid _
    have hact := stepAction_valid (stepRisk (dictSet (stepOverride
        (stepConfClamp (stepConfCoerce (stepCatsType (stepMnpi data0)))))
        "categories" (PyVal.list L)))
    refine ⟨?_, hconf⟩
    obtain ⟨hq0, hq1, hq2⟩ := normalizedConfidence_props data0
    simp only [isNormalizedRec, hmnpi, hconf, hcats, hrisk, hact, Bool.true_and, Bool.and_true,
      Bool.and_eq_true, decide_eq_true_eq, Bool.not_eq_true']
    refine ⟨⟨hq0, hq1, hq2⟩, ?_, hLall⟩
    simpa [List.isEmpty_iff] using hL

/-- Every record `safe_parse_model_output` returns satisfies the five
validated-field invariants. -/
theorem safe_parse_normalized {s : String} {d : PyDict}
    (h : safe_parse_model_output s = Except.ok d) : isNormalizedRec d = true := by
  unfold safe_parse_model_output at h
  cases hx : extractBrace s with
  | none =>
    simp only [hx, Except.ok.injEq] at h
    subst h
    decide
  | some sub =>
    simp only [hx] at h
    cases hj : jsonLoads sub with
    | error e =>
      simp only [hj, Except.ok.injEq] at h
      subst h
      decide
    | ok v =>
      simp only [hj] at h
      cases v with
      | dict d0 => exact (normalizeDict_ok h).1
      | none => cases h
      | bool b => cases h
      | int n => cases h
      | float q => cases h
      | str t => cases h
      | list l => cases h

/-! ### Claim theorems: controller and normalizer -/

/-- C2 (code bug evidence): `aggregate_results` is *not* total on malformed
fields.  A mapping entry whose `confidence` is a non-numeric string makes
`float(r.get("confidence", 0.0))` raise `ValueError` (there is no
`try` around the coercion, unlike the classifier's), so the call raises
instead of coercing to a safe default; non-mapping entries, by contrast,
are indeed skipped (the second conjunct: a list of junk scalars aggregates
exactly like the empty list). -/
theorem C2_aggregate_confidence_raises :
    aggregate_results [PyVal.dict [("confidence", PyVal.str "abc")]] = Except.error () ∧
    aggregate_results [PyVal.int 7, PyVal.str "x", PyVal.list []] = aggregate_results [] := by
  exact ⟨by rfl, by rfl⟩

/-- C10: with a non-positive retry budget, `range(1, max_retries + 1)` is
empty, so the model is never invoked (the result does not depend on the
invoker) and the function returns the parse-failure fallback obtained from
normalizing the empty `last_response_text`, whose fields are the
`"Model did not return JSON"` record — not an invocation-error record. -/
theorem C10_zero_budget_skips_model (invoker : Nat → Except String String)
    (chunk : String) (max_retries : Int) (h : max_retries ≤ 0) :
    classify_chunk invoker chunk max_retries = Except.ok noJsonRecord ∧
    pyGet noJsonRecord "mnpi" = some (PyVal.str "unclear") ∧
    pyGet noJsonRecord "categories" = some (PyVal.list [PyVal.str "None"]) ∧
    pyGet noJsonRecord "confidence" = some (PyVal.float 0) ∧
    pyGet noJsonRecord "recommended_action" = some (PyVal.str "human_review") ∧
    pyGet noJsonRecord "notes" = some (PyVal.str "Model did not return JSON") := by
  have hn : max_retries.toNat = 0 := Int.toNat_of_nonpos h
  refine ⟨?_, rfl, rfl, by rfl, rfl, rfl⟩
  unfold classify_chunk
  rw [hn]
  rfl

/-- C10 witness: a dead invoker with budget `-2` still yields the
no-JSON fallback record. -/
theorem C10_zero_budget_skips_model_witness :
    classify_chunk (fun _ => Except.error "connection refused") "text" (-2) =
      Except.ok noJsonRecord ∧
    pyGet noJsonRecord "mnpi" = some (PyVal.str "unclear") ∧
    pyGet noJsonRecord "categories" = some (PyVal.list [PyVal.str "None"]) ∧
    pyGet noJsonRecord "confidence" = some (PyVal.float 0) ∧
    pyGet noJsonRecord "recommended_action" = some (PyVal.str "human_review") ∧
    pyGet noJsonRecord "notes" = some (PyVal.str "Model did not return JSON") :=
  C10_zero_budget_skips_model (fun _ => Except.error "connection refused") "text" (-2)
    (by decide)

/-- The invoker for the C3 counterexample: the single attempt returns a
well-formed borderline response whose `notes` is the number `5`, and the
verifier invocation raises. -/
def cexInvoker : Nat → Except String String := fun i =>
  if i = 0 then
    Except.ok "\x7b\"mnpi\": \"yes\", \"confidence\": 0.5, \"notes\": 5\x7d"
  else Except.error "boom"

/-- C3 counterexample: `classify_chunk` *can* propagate an exception.
With the invoker above, the verifier `except` handler evaluates
`(parsed.get("notes") or "") + " | verifier failed"` with `notes == 5`,
and the `TypeError` raised inside the handler escapes to the caller. -/
theorem C3_counterexample : classify_chunk cexInvoker "chunk" 1 = Except.error () := by
  rfl

/-- If every attempt of the loop raises, the loop ends in the terminal
error branch carrying the final attempt's error text. -/
theorem runAttempts_all_errors (invoker : Nat → Except String String) :
    ∀ (rem idx : Nat) (last : String), 1 ≤ rem →
      (∀ i, idx ≤ i → i < idx + rem → ∃ e, invoker i = Except.error e) →
      ∃ e, invoker (idx + rem - 1) = Except.error e ∧
        runAttempts invoker idx rem last = LoopOut.terminalError e
  | 0, _, _, h, _ => absurd h (by omega)
  | 1, idx, last, _, herr => by
    obtain ⟨e, he⟩ := herr idx (le_refl _) (by omega)
    refine ⟨e, by simpa using he, ?_⟩
    unfold runAttempts
    rw [he]
    rfl
  | rem + 2, idx, last, _, herr => by
    obtain ⟨e, he⟩ := herr idx (le_refl _) (by omega)
    obtain ⟨e', he', hr⟩ := runAttempts_all_errors invoker (rem + 1) (idx + 1)
      ("ERROR: " ++ e) (by omega) (fun i hi1 hi2 => herr i (by omega) (by omega))
    refine ⟨e', ?_, ?_⟩
    · have hidx : idx + (rem + 2) - 1 = idx + 1 + (rem + 1) - 1 := by omega
      rw [hidx]
      exact he'
    · unfold runAttempts
      rw [he]
      simp only [if_neg (by omega : ¬rem + 1 = 0)]
      exact hr

/-- C3 (amended): every model-invocation error during the attempt loop is
caught, and when all `max(0, max_retries)` attempts raise, the controller
returns (never raises) the terminal record with `mnpi="unclear"`,
`recommended_action="human_review"` and the final error text preserved in
`notes`.  (The headline "never propagates an exception" fails only in the
verifier-failure handler, per `C3_counterexample`.) -/
theorem C3_all_attempts_raise (invoker : Nat → Except String String) (chunk : String)
    (mr : Int) (h1 : 1 ≤ mr)
    (herr : ∀ i, i < mr.toNat → ∃ e, invoker i = Except.error e) :
    ∃ e, invoker (mr.toNat - 1) = Except.error e ∧
      classify_chunk invoker chunk mr = Except.ok (llmErrorRecord e) ∧
      pyGet (llmErrorRecord e) "mnpi" = some (PyVal.str "unclear") ∧
      pyGet (llmErrorRecord e) "recommended_action" = some (PyVal.str "human_review") ∧
      pyGet (llmErrorRecord e) "notes" =
        some (PyVal.str ("LLM error after retries: " ++ e)) := by
  obtain ⟨e, he, hr⟩ := runAttempts_all_errors invoker mr.toNat 0 "" (by omega)
    (fun i hi1 hi2 => herr i (by omega))
  refine ⟨e, by simpa using he, ?_, rfl, rfl, rfl⟩
  simp only [classify_chunk]
  rw [hr]

/-- C3 witness: a two-attempt budget against an invoker that always raises
`"gateway timeout"` produces the terminal record. -/
theorem C3_all_attempts_raise_witness :
    ∃ e, (fun _ => Except.error "gateway timeout" : Nat → Except String String)
        ((2 : Int).toNat - 1) = Except.error e ∧
      classify_chunk (fun _ => Except.error "gateway timeout") "sample" 2 =
        Except.ok (llmErrorRecord e) ∧
      pyGet (llmErrorRecord e) "mnpi" = some (PyVal.str "unclear") ∧
      pyGet (llmErrorRecord e) "recommended_action" = some (PyVal.str "human_review") ∧
      pyGet (llmErrorRecord e) "notes" =
        some (PyVal.str ("LLM error after retries: " ++ e)) :=
  C3_all_attempts_raise (fun _ => Except.error "gateway timeout") "sample" 2 (by decide)
    (fun i _ => ⟨"gateway timeout", rfl⟩)

theorem dropUntilCh_some {c : Char} {l suff : List Char}
    (h : dropUntilCh c l = some suff) :
    ∃ pre, l = pre ++ suff ∧ c ∉ pre ∧ ∃ t, suff = c :: t := by
  induction l with
  | nil => cases h
  | cons x xs ih =>
    by_cases hx : x = c
    · subst hx
      simp [dropUntilCh] at h
      subst h
      exact ⟨[], rfl, by simp, xs, rfl⟩
    · simp only [dropUntilCh, if_neg hx] at h
      obtain ⟨pre, hl, hc, t, ht⟩ := ih h
      refine ⟨x :: pre, by simp [hl], ?_, t, ht⟩
      simp only [List.mem_cons, not_or]
      exact ⟨fun hcx => hx hcx.symm, hc⟩

/-- C8: on any response string, `safe_parse_model_output` first applies
the greedy brace search.  When no brace-delimited span exists, it returns
the "no valid JSON" fallback record verbatim; when a span exists, that
span runs from the string's first `\x7b` to its last `\x7d` (the greedy
`.*` with `DOTALL` crossing newlines), and a decode failure on the span
yields the "malformed JSON" fallback record verbatim. -/
theorem C8_extraction_and_fallbacks (s : String) :
    (extractBrace s = Option.none → safe_parse_model_output s = Except.ok noJsonRecord) ∧
    (∀ sub, extractBrace s = some sub →
      (∃ pre mid post, s.data = pre ++ lbrace :: (mid ++ rbrace :: post) ∧
        lbrace ∉ pre ∧ rbrace ∉ post ∧ sub.data = lbrace :: (mid ++ [rbrace])) ∧
      (jsonLoads sub = Except.error () → safe_parse_model_output s = Except.ok badJsonRecord)) := by
  constructor
  · intro hx
    unfold safe_parse_model_output
    rw [hx]
  · intro sub hsub
    constructor
    · unfold extractBrace at hsub
      cases h1 : dropUntilCh lbrace s.data with
      | none => simp only [h1] at hsub; cases hsub
      | some suff =>
        simp only [h1] at hsub
        cases h2 : dropUntilCh rbrace suff.reverse with
        | none => simp only [h2] at hsub; cases hsub
        | some revSeg =>
          simp only [h2, Option.some.injEq] at hsub
          obtain ⟨pre, hs, hcpre, t, ht⟩ := dropUntilCh_some h1
          obtain ⟨pre2, hs2, hcpre2, t2, ht2⟩ := dropUntilCh_some h2
          have hsubdata : sub.data = revSeg.reverse := by
            rw [← hsub]
          have hsuff : suff = revSeg.reverse ++ pre2.reverse := by
            have := congrArg List.reverse hs2
            simpa [List.reverse_append] using this
          have hrev : revSeg.reverse = t2.reverse ++ [rbrace] := by
            rw [ht2]
            simp
          cases ht2r : t2.reverse with
          | nil =>
            exfalso
            have : suff = rbrace :: pre2.reverse := by
              rw [hsuff, hrev, ht2r]
              simp
            rw [ht] at this
            have hhead : lbrace = rbrace := by
              exact (List.cons.injEq _ _ _ _).mp this |>.1
            exact absurd hhead (by decide)
          | cons a mid =>
            have hsuff2 : suff = (a :: mid ++ [rbrace]) ++ pre2.reverse := by
              rw [hsuff, hrev, ht2r]
            have halb : a = lbrace := by
              rw [ht] at hsuff2
              have := ((List.cons.injEq _ _ _ _).mp (by simpa using hsuff2)).1
              exact this.symm
            refine ⟨pre, mid, pre2.reverse, ?_, hcpre, ?_, ?_⟩
            · rw [hs, hsuff2, halb]
              simp
            · simpa using hcpre2
            · rw [hsubdata, hrev, ht2r, halb]
              simp
    · intro hj
      unfold safe_parse_model_output
      simp only [hsub, hj]

/-- C8 witness: a braceless string gives the no-JSON fallback; the string
`\x7bx\x7d` extracts to itself and gives the malformed-JSON fallback. -/
theorem C8_extraction_and_fallbacks_witness :
    safe_parse_model_output "hello" = Except.ok noJsonRecord ∧
    safe_parse_model_output "\x7bx\x7d" = Except.ok badJsonRecord :=
  ⟨(C8_extraction_and_fallbacks "hello").1 rfl,
   ((C8_extraction_and_fallbacks "\x7bx\x7d").2 "\x7bx\x7d" rfl).2 rfl⟩

/-- C4: the low-confidence-yes override, in both places it runs.  First,
inside `safe_parse_model_output`: whenever the raw `mnpi` is `"yes"` and
the clamped, rounded confidence is below `0.5`, every record the
normalizer returns carries `mnpi="unclear"` and
`recommended_action="human_review"`.  Second, the identical override is
re-applied to the merged record built by the verifier pass, as the final
post-processing step before `classify_chunk` returns it. -/
theorem C4_low_confidence_yes_override :
    (∀ data0 d : PyDict, pyGet data0 "mnpi" = some (PyVal.str "yes") →
      normalizedConfidence data0 < 0.5 → normalizeDict data0 = Except.ok d →
      pyGet d "mnpi" = some (PyVal.str "unclear") ∧
      pyGet d "recommended_action" = some (PyVal.str "human_review")) ∧
    (∀ p v : PyDict, isStrEq (pyGet (verifierMerge p v) "mnpi") "yes" = true →
      confOf (verifierMerge p v) < 0.5 →
      pyGet (verifierFinal p v) "mnpi" = some (PyVal.str "unclear") ∧
      pyGet (verifierFinal p v) "recommended_action" = some (PyVal.str "human_review")) := by
  constructor
  · intro data0 d hm hc h
    have he1 : stepMnpi data0 = data0 := by
      unfold stepMnpi
      rw [if_pos (by rw [hm]; rfl)]
    have hm4 : pyGet (stepConfClamp (stepConfCoerce (stepCatsType (stepMnpi data0)))) "mnpi" =
        some (PyVal.str "yes") := by
      rw [pyGet_stepConfClamp_ne _ _ (by decide), pyGet_stepConfCoerce_ne _ _ (by decide),
        pyGet_stepCatsType_ne _ _ (by decide), he1, hm]
    have hc4 : confOf (stepConfClamp (stepConfCoerce (stepCatsType (stepMnpi data0)))) =
        normalizedConfidence data0 := by
      unfold confOf
      rw [stepConfClamp_get]
      rfl
    have hov : stepOverride (stepConfClamp (stepConfCoerce (stepCatsType (stepMnpi data0)))) =
        dictSet (dictSet (stepConfClamp (stepConfCoerce (stepCatsType (stepMnpi data0))))
          "mnpi" (PyVal.str "unclear")) "recommended_action" (PyVal.str "human_review") := by
      have hcond : isStrEq (pyGet (stepConfClamp (stepConfCoerce (stepCatsType
          (stepMnpi data0)))) "mnpi") "yes" = true ∧
          confOf (stepConfClamp (stepConfCoerce (stepCatsType (stepMnpi data0)))) < 0.5 := by
        constructor
        · rw [hm4]; rfl
        · rw [hc4]; exact hc
      unfold stepOverride
      rw [if_pos hcond]
    unfold normalizeDict at h
    rw [hov] at h
    cases hcf : stepCatFilter (dictSet (dictSet (stepConfClamp (stepConfCoerce (stepCatsType
        (stepMnpi data0)))) "mnpi" (PyVal.str "unclear")) "recommended_action"
        (PyVal.str "human_review")) with
    | error e =>
      simp only [hcf] at h
      cases h
    | ok d6 =>
      simp only [hcf, Except.ok.injEq] at h
      subst h
      obtain ⟨L, hd6, _, _⟩ := stepCatFilter_ok hcf
      subst hd6
      have hact7 : pyGet (stepRisk (dictSet (dictSet (dictSet (stepConfClamp (stepConfCoerce
          (stepCatsType (stepMnpi data0)))) "mnpi" (PyVal.str "unclear"))
          "recommended_action" (PyVal.str "human_review")) "categories" (PyVal.list L)))
          "recommended_action" = some (PyVal.str "human_review") := by
        rw [pyGet_stepRisk_ne _ _ (by decide), pyGet_dictSet_ne _ _ _ _ (by decide),
          pyGet_dictSet_self]
      constructor
      · rw [pyGet_stepAction_ne _ _ (by decide), pyGet_stepRisk_ne _ _ (by decide),
          pyGet_dictSet_ne _ _ _ _ (by decide), pyGet_dictSet_ne _ _ _ _ (by decide),
          pyGet_dictSet_self]
      · rw [stepAction_of_valid _ (by rw [hact7]; rfl), hact7]
  · intro p v hm hc
    unfold verifierFinal applyFinalOverride
    rw [if_pos ⟨hm, hc⟩]
    constructor
    · rw [pyGet_dictSet_ne _ _ _ _ (by decide), pyGet_dictSet_self]
    · rw [pyGet_dictSet_self]

/-- Raw input for the C4 witness: the model said yes with confidence 0.3. -/
def C4data : PyDict := [("mnpi", PyVal.str "yes"), ("confidence", PyVal.float (3/10))]

/-- The record the normalizer produces for `C4data`. -/
def C4out : PyDict :=
  [("mnpi", PyVal.str "unclear"), ("confidence", PyVal.float (3/10)),
   ("categories", PyVal.list [PyVal.str "None"]),
   ("recommended_action", PyVal.str "human_review"), ("risk_level", PyVal.str "low")]

/-- A borderline first-pass/verifier record pair for the C4 witness. -/
def C4pass : PyDict := [("mnpi", PyVal.str "yes"), ("confidence", PyVal.float (9/20))]

/-- C4 witness: both override sites, at concrete inputs. -/
theorem C4_low_confidence_yes_override_witness :
    (pyGet C4out "mnpi" = some (PyVal.str "unclear") ∧
      pyGet C4out "recommended_action" = some (PyVal.str "human_review")) ∧
    (pyGet (verifierFinal C4pass C4pass) "mnpi" = some (PyVal.str "unclear") ∧
      pyGet (verifierFinal C4pass C4pass) "recommended_action" =
        some (PyVal.str "human_review")) :=
  ⟨C4_low_confidence_yes_override.1 C4data C4out (by rfl) (by decide) (by rfl),
   C4_low_confidence_yes_override.2 C4pass C4pass (by rfl) (by decide)⟩

theorem mnpiValid_elim {v : Option PyVal} (h : mnpiValid v = true) :
    ∃ m, v = some (PyVal.str m) ∧ (m = "yes" ∨ m = "no" ∨ m = "unclear") := by
  cases v with
  | none => cases h
  | some pv =>
    cases pv with
    | str s => exact ⟨s, rfl, by simpa [mnpiValid] using h⟩
    | none => simp [mnpiValid] at h
    | bool b => simp [mnpiValid] at h
    | int n => simp [mnpiValid] at h
    | float q => simp [mnpiValid] at h
    | list l => simp [mnpiValid] at h
    | dict e => simp [mnpiValid] at h

theorem riskValid_elim {v : Option PyVal} (h : riskValid v = true) :
    ∃ r, v = some (PyVal.str r) ∧ (r = "low" ∨ r = "medium" ∨ r = "high") := by
  cases v with
  | none => cases h
  | some pv =>
    cases pv with
    | str s => exact ⟨s, rfl, by simpa [riskValid] using h⟩
    | none => simp [riskValid] at h
    | bool b => simp [riskValid] at h
    | int n => simp [riskValid] at h
    | float q => simp [riskValid] at h
    | list l => simp [riskValid] at h
    | dict e => simp [riskValid] at h

theorem actValid_elim {v : Option PyVal} (h : actValid v = true) :
    ∃ a, v = some (PyVal.str a) ∧
      (a = "escalate" ∨ a = "human_review" ∨ a = "no_action") := by
  cases v with
  | none => cases h
  | some pv =>
    cases pv with
    | str s => exact ⟨s, rfl, by simpa [actValid] using h⟩
    | none => simp [actValid] at h
    | bool b => simp [actValid] at h
    | int n => simp [actValid] at h
    | float q => simp [actValid] at h
    | list l => simp [actValid] at h
    | dict e => simp [actValid] at h

theorem catOkB_elim {c : PyVal} (h : catOkB c = true) :
    ∃ t, c = PyVal.str t ∧ t ∈ allowedCategories := by
  cases c with
  | str s => exact ⟨s, rfl, by simpa [catOkB] using h⟩
  | none => simp [catOkB] at h
  | bool b => simp [catOkB] at h
  | int n => simp [catOkB] at h
  | float q => simp [catOkB] at h
  | list l => simp [catOkB] at h
  | dict e => simp [catOkB] at h

/-- C1 (amended): on any string input on which `safe_parse_model_output`
returns a record, the five *validated* fields are always present and
inside their enumerated/clamped domains.  The two free-text fields are not
validated and can be absent (`C1_counterexample`), and the analyzer-level
`_normalize_classify_output` returns an already-structured mapping
unchanged, with no validation at all (final conjunct). -/
theorem C1_normalizer_field_domains (s : String) (d : PyDict)
    (h : safe_parse_model_output s = Except.ok d) :
    (∃ m, pyGet d "mnpi" = some (PyVal.str m) ∧ (m = "yes" ∨ m = "no" ∨ m = "unclear")) ∧
    (∃ q, pyGet d "confidence" = some (PyVal.float q) ∧ 0 ≤ q ∧ q ≤ 0.95 ∧ round2 q = q) ∧
    (∃ L, pyGet d "categories" = some (PyVal.list L) ∧ L ≠ [] ∧
      ∀ c ∈ L, ∃ t, c = PyVal.str t ∧ t ∈ allowedCategories) ∧
    (∃ r, pyGet d "risk_level" = some (PyVal.str r) ∧ (r = "low" ∨ r = "medium" ∨ r = "high")) ∧
    (∃ a, pyGet d "recommended_action" = some (PyVal.str a) ∧
      (a = "escalate" ∨ a = "human_review" ∨ a = "no_action")) ∧
    (∀ d0 : PyDict, normalizeClassifyOutput (PyVal.dict d0) = PyVal.dict d0) := by
  have hn := safe_parse_normalized h
  unfold isNormalizedRec at hn
  simp only [Bool.and_eq_true] at hn
  obtain ⟨⟨⟨⟨h1, h2⟩, h3⟩, h4⟩, h5⟩ := hn
  refine ⟨mnpiValid_elim h1, ?_, ?_, riskValid_elim h4, actValid_elim h5, fun d0 => rfl⟩
  · cases hv : pyGet d "confidence" with
    | none => rw [hv] at h2; cases h2
    | some pv =>
      rw [hv] at h2
      cases pv with
      | float q =>
        refine ⟨q, rfl, ?_⟩
        simpa using h2
      | none => cases h2
      | bool b => cases h2
      | int n => cases h2
      | str t => cases h2
      | list l => cases h2
      | dict e => cases h2
  · cases hv : pyGet d "categories" with
    | none => rw [hv] at h3; cases h3
    | some pv =>
      rw [hv] at h3
      cases pv with
      | list L =>
        refine ⟨L, rfl, ?_, ?_⟩
        · have := (Bool.and_eq_true _ _).mp h3 |>.1
          simpa [List.isEmpty_iff] using this
        · intro c hcmem
          have := (Bool.and_eq_true _ _).mp h3 |>.2
          exact catOkB_elim (List.all_eq_true.mp this c hcmem)
      | none => cases h3
      | bool b => cases h3
      | int n => cases h3
      | float q => cases h3
      | str t => cases h3
      | dict e => cases h3

/-- The record the classifier normalizer returns for the valid JSON
response `\x7b"mnpi": "no"\x7d`. -/
def C1output : PyDict :=
  [("mnpi", PyVal.str "no"), ("categories", PyVal.list [PyVal.str "None"]),
   ("confidence", PyVal.float 0), ("risk_level", PyVal.str "low"),
   ("recommended_action", PyVal.str "no_action")]

/-- C1 counterexample: on the perfectly decodable model output
`\x7b"mnpi": "no"\x7d`, the normalizer returns a record with *no*
`notes` entry and *no* `evidence_summary` entry, so not all seven fields
of the claimed `ClassificationRecord` are present. -/
theorem C1_counterexample :
    safe_parse_model_output "\x7b\"mnpi\": \"no\"\x7d" = Except.ok C1output ∧
    pyGet C1output "notes" = Option.none ∧
    pyGet C1output "evidence_summary" = Option.none := by
  refine ⟨by rfl, rfl, rfl⟩

/-- C1 witness: the amended theorem applied to the empty-string response,
whose record is the no-JSON fallback. -/
theorem C1_normalizer_field_domains_witness :
    (∃ m, pyGet noJsonRecord "mnpi" = some (PyVal.str m) ∧
      (m = "yes" ∨ m = "no" ∨ m = "unclear")) ∧
    (∃ q, pyGet noJsonRecord "confidence" = some (PyVal.float q) ∧
      0 ≤ q ∧ q ≤ 0.95 ∧ round2 q = q) ∧
    (∃ L, pyGet noJsonRecord "categories" = some (PyVal.list L) ∧ L ≠ [] ∧
      ∀ c ∈ L, ∃ t, c = PyVal.str t ∧ t ∈ allowedCategories) ∧
    (∃ r, pyGet noJsonRecord "risk_level" = some (PyVal.str r) ∧
      (r = "low" ∨ r = "medium" ∨ r = "high")) ∧
    (∃ a, pyGet noJsonRecord "recommended_action" = some (PyVal.str a) ∧
      (a = "escalate" ∨ a = "human_review" ∨ a = "no_action")) ∧
    (∀ d0 : PyDict, normalizeClassifyOutput (PyVal.dict d0) = PyVal.dict d0) :=
  C1_normalizer_field_domains "" noJsonRecord (by rfl)

theorem clamp095_eq_self {q : ℚ} (h0 : 0 ≤ q) (h1 : q ≤ 0.95) : clamp095 q = q := by
  unfold clamp095
  rw [min_eq_right h1, max_eq_right h0]

theorem isNormalizedRec_elim {d : PyDict} (h : isNormalizedRec d = true) :
    (∃ m, pyGet d "mnpi" = some (PyVal.str m) ∧ (m = "yes" ∨ m = "no" ∨ m = "unclear")) ∧
    (∃ q, pyGet d "confidence" = some (PyVal.float q) ∧ 0 ≤ q ∧ q ≤ 0.95 ∧ round2 q = q) ∧
    (∃ L, pyGet d "categories" = some (PyVal.list L) ∧ L ≠ []) ∧
    (∃ r, pyGet d "risk_level" = some (PyVal.str r) ∧ (r = "low" ∨ r = "medium" ∨ r = "high")) ∧
    (∃ a, pyGet d "recommended_action" = some (PyVal.str a) ∧
      (a = "escalate" ∨ a = "human_review" ∨ a = "no_action")) := by
  unfold isNormalizedRec at h
  simp only [Bool.and_eq_true] at h
  obtain ⟨⟨⟨⟨h1, h2⟩, h3⟩, h4⟩, h5⟩ := h
  refine ⟨mnpiValid_elim h1, ?_, ?_, riskValid_elim h4, actValid_elim h5⟩
  · cases hv : pyGet d "confidence" with
    | none => rw [hv] at h2; cases h2
    | some pv =>
      rw [hv] at h2
      cases pv with
      | float q => exact ⟨q, rfl, by simpa using h2⟩
      | none => cases h2
      | bool b => cases h2
      | int n => cases h2
      | str t => cases h2
      | list l => cases h2
      | dict e => cases h2
  · cases hv : pyGet d "categories" with
    | none => rw [hv] at h3; cases h3
    | some pv =>
      rw [hv] at h3
      cases pv with
      | list L =>
        refine ⟨L, rfl, ?_⟩
        have := (Bool.and_eq_true _ _).mp h3 |>.1
        simpa [List.isEmpty_iff] using this
      | none => cases h3
      | bool b => cases h3
      | int n => cases h3
      | float q => cases h3
      | str t => cases h3
      | dict e => cases h3

/-- C5: the verifier merge rule, for any two records produced by the
normalizer (the first not a `no`, since an early-accepted `no` never
reaches the verifier): merged confidence is the minimum of the two
passes' confidences (on which the code's clamp-and-round is the
identity); the merged verdict is `unclear` when either pass said
`unclear` or the passes disagree, else the first pass's verdict;
`categories`, `risk_level` and `recommended_action` take the verifier's
(always present, non-empty) values; `evidence_summary` and `notes` take
the verifier's value when present and non-empty, else the first pass's. -/
theorem C5_verifier_merge (p v : PyDict) (hp : isNormalizedRec p = true)
    (hv : isNormalizedRec v = true) (hno : pyGet p "mnpi" ≠ some (PyVal.str "no")) :
    (pyGet (verifierMerge p v) "confidence" =
        some (PyVal.float (round2 (clamp095 (min (confOf p) (confOf v))))) ∧
      round2 (clamp095 (min (confOf p) (confOf v))) = min (confOf p) (confOf v)) ∧
    (pyGet (verifierMerge p v) "mnpi" = some (PyVal.str
      (if getStrD p "mnpi" = "unclear" ∨ getStrD v "mnpi" = "unclear" ∨
          (getStrD p "mnpi" = "yes" ∧ getStrD v "mnpi" = "no") ∨
          (getStrD p "mnpi" = "no" ∧ getStrD v "mnpi" = "yes")
        then "unclear" else getStrD p "mnpi"))) ∧
    (pyGet (verifierMerge p v) "categories" = pyGet v "categories") ∧
    (pyGet (verifierMerge p v) "risk_level" = pyGet v "risk_level") ∧
    (pyGet (verifierMerge p v) "recommended_action" = pyGet v "recommended_action") ∧
    (∀ t, pyGet v "evidence_summary" = some (PyVal.str t) → t ≠ "" →
      pyGet (verifierMerge p v) "evidence_summary" = some (PyVal.str t)) ∧
    ((pyGet v "evidence_summary" = Option.none ∨
        pyGet v "evidence_summary" = some (PyVal.str "")) →
      pyGet (verifierMerge p v) "evidence_summary" =
        some ((pyGet p "evidence_summary").getD PyVal.none)) ∧
    (∀ t, pyGet v "notes" = some (PyVal.str t) → t ≠ "" →
      pyGet (verifierMerge p v) "notes" = some (PyVal.str t)) ∧
    ((pyGet v "notes" = Option.none ∨ pyGet v "notes" = some (PyVal.str "")) →
      pyGet (verifierMerge p v) "notes" = some ((pyGet p "notes").getD PyVal.none)) := by
  obtain ⟨⟨pm, hpm, hpm3⟩, ⟨pq, hpq, hpq0, hpq1, hpq2⟩, _, _, _⟩ := isNormalizedRec_elim hp
  obtain ⟨⟨vm, hvm, hvm3⟩, ⟨vq, hvq, hvq0, hvq1, hvq2⟩, ⟨vL, hvL, hvLne⟩,
    ⟨vr, hvr, hvr3⟩, ⟨va, hva, hva3⟩⟩ := isNormalizedRec_elim hv
  have hpconf : confOf p = pq := by unfold confOf; rw [hpq]; rfl
  have hvconf : confOf v = vq := by unfold confOf; rw [hvq]; rfl
  have hpmS : getStrD p "mnpi" = pm := by unfold getStrD; rw [hpm]
  have hvmS : getStrD v "mnpi" = vm := by unfold getStrD; rw [hvm]
  have hpmyu : pm = "yes" ∨ pm = "unclear" := by
    rcases hpm3 with h | h | h
    · exact Or.inl h
    · exact absurd (hpm.trans (by rw [h])) hno
    · exact Or.inr h
  refine ⟨⟨rfl, ?_⟩, ?_, ?_, ?_, ?_, ?_, ?_, ?_, ?_⟩
  · have hmin0 : 0 ≤ min (confOf p) (confOf v) := by
      rw [hpconf, hvconf]
      exact le_min hpq0 hvq0
    have hmin1 : min (confOf p) (confOf v) ≤ 0.95 := by
      rw [hpconf, hvconf]
      exact le_trans (min_le_left _ _) hpq1
    rw [clamp095_eq_self hmin0 hmin1]
    rcases min_cases (confOf p) (confOf v) with ⟨he, _⟩ | ⟨he, _⟩ <;> rw [he]
    · rw [hpconf]; exact hpq2
    · rw [hvconf]; exact hvq2
  · have : pyGet (verifierMerge p v) "mnpi" = some (PyVal.str (mergeMnpi p v)) := rfl
    rw [this]
    have hmm : mergeMnpi p v =
        (if getStrD p "mnpi" = "unclear" ∨ getStrD v "mnpi" = "unclear" ∨
            (getStrD p "mnpi" = "yes" ∧ getStrD v "mnpi" = "no") ∨
            (getStrD p "mnpi" = "no" ∧ getStrD v "mnpi" = "yes")
          then "unclear" else getStrD p "mnpi") := by
      unfold mergeMnpi
      rw [hpmS, hvmS]
      rcases hpmyu with rfl | rfl <;> rcases hvm3 with rfl | rfl | rfl <;> decide
    rw [hmm]
  · have : pyGet (verifierMerge p v) "categories" = some (mergeCats p v) := rfl
    rw [this, hvL]
    unfold mergeCats
    rw [hvL]
    have ht : pyTruthy ((some (PyVal.list vL)).getD PyVal.none) = true := by
      simp [pyTruthy, List.isEmpty_iff, hvLne]
    rw [if_pos ht]
    rfl
  · have : pyGet (verifierMerge p v) "risk_level" =
        some (pyOrElse (pyGet v "risk_level") (pyGet p "risk_level")) := rfl
    rw [this, hvr]
    unfold pyOrElse
    have ht : pyTruthy ((some (PyVal.str vr)).getD PyVal.none) = true := by
      rcases hvr3 with rfl | rfl | rfl <;> decide
    rw [if_pos ht]
    rfl
  · have : pyGet (verifierMerge p v) "recommended_action" =
        some (pyOrElse (pyGet v "recommended_action") (pyGet p "recommended_action")) := rfl
    rw [this, hva]
    unfold pyOrElse
    have ht : pyTruthy ((some (PyVal.str va)).getD PyVal.none) = true := by
      rcases hva3 with rfl | rfl | rfl <;> decide
    rw [if_pos ht]
    rfl
  · intro t het hne
    have : pyGet (verifierMerge p v) "evidence_summary" =
        some (pyOrElse (pyGet v "evidence_summary") (pyGet p "evidence_summary")) := rfl
    rw [this, het]
    unfold pyOrElse
    rw [if_pos (by simpa [pyTruthy] using hne)]
    rfl
  · intro hcase
    have hrfl : pyGet (verifierMerge p v) "evidence_summary" =
        some (pyOrElse (pyGet v "evidence_summary") (pyGet p "evidence_summary")) := rfl
    rcases hcase with he | he <;> rw [hrfl, he] <;> unfold pyOrElse <;>
      rw [if_neg (by decide)]
  · intro t het hne
    have : pyGet (verifierMerge p v) "notes" =
        some (pyOrElse (pyGet v "notes") (pyGet p "notes")) := rfl
    rw [this, het]
    unfold pyOrElse
    rw [if_pos (by simpa [pyTruthy] using hne)]
    rfl
  · intro hcase
    have hrfl : pyGet (verifierMerge p v) "notes" =
        some (pyOrElse (pyGet v "notes") (pyGet p "notes")) := rfl
    rcases hcase with he | he <;> rw [hrfl, he] <;> unfold pyOrElse <;>
      rw [if_neg (by decide)]

/-- First pass for the C5 witness: `yes` at confidence 0.6. -/
def C5pass1 : PyDict :=
  [("mnpi", PyVal.str "yes"), ("categories", PyVal.list [PyVal.str "None"]),
   ("confidence", PyVal.float (3/5)), ("risk_level", PyVal.str "medium"),
   ("recommended_action", PyVal.str "human_review")]

/-- Verifier pass for the C5 witness: `unclear` at confidence 0.5. -/
def C5pass2 : PyDict :=
  [("mnpi", PyVal.str "unclear"), ("categories", PyVal.list [PyVal.str "None"]),
   ("confidence", PyVal.float (1/2)), ("risk_level", PyVal.str "medium"),
   ("recommended_action", PyVal.str "human_review")]

/-- C5 witness (the spec's merge example): first pass 0.6/`yes`, verifier
0.5/`unclear` merge to `mnpi="unclear"` with confidence `0.5`. -/
theorem C5_verifier_merge_witness :
    pyGet (verifierMerge C5pass1 C5pass2) "mnpi" = some (PyVal.str "unclear") ∧
    pyGet (verifierMerge C5pass1 C5pass2) "confidence" = some (PyVal.float (1/2)) := by
  obtain ⟨⟨hconf, hmin⟩, hmnpi, _⟩ :=
    C5_verifier_merge C5pass1 C5pass2 (by decide) (by decide)
      (by intro h; simp [C5pass1, pyGet] at h)
  constructor
  · rw [hmnpi]
    rfl
  · rw [hconf, hmin]
    rfl

/-! ### Typed records for the aggregation claims

The aggregation claims quantify over sequences of `ClassificationRecord`s;
`CRecord` is that record with its declared field types, and `CRecord.toPy`
is its embedding as the Python dict the aggregator receives. -/

structure CRecord where
  mnpi : String
  categories : List String
  confidence : ℚ
  evidence_summary : String
  risk_level : String
  recommended_action : String
  notes : String
deriving DecidableEq

/-- The Python dict carrying a `CRecord`. -/
def CRecord.toPyDict (r : CRecord) : PyDict :=
  [("mnpi", PyVal.str r.mnpi),
   ("categories", PyVal.list (r.categories.map PyVal.str)),
   ("confidence", PyVal.float r.confidence),
   ("evidence_summary", PyVal.str r.evidence_summary),
   ("risk_level", PyVal.str r.risk_level),
   ("recommended_action", PyVal.str r.recommended_action),
   ("notes", PyVal.str r.notes)]

def CRecord.toPy (r : CRecord) : PyVal := PyVal.dict r.toPyDict

/-- What the aggregator's defensive normalization keeps of a `CRecord`. -/
def CRecord.toAgg (r : CRecord) : AggRec :=
  { mnpi := PyVal.str r.mnpi, categories := r.categories.map PyVal.str,
    confidence := r.confidence, evidence_summary := PyVal.str r.evidence_summary,
    recommended_action := PyVal.str r.recommended_action }

theorem aggNormEntry_toPyDict (r : CRecord) :
    aggNormEntry r.toPyDict = Except.ok r.toAgg := rfl

theorem aggNormalize_map_toPy : ∀ l : List CRecord,
    aggNormalize (l.map CRecord.toPy) = Except.ok (l.map CRecord.toAgg)
  | [] => rfl
  | r :: rest => by
    have ih := aggNormalize_map_toPy rest
    simp only [List.map_cons, aggNormalize, CRecord.toPy, aggNormEntry_toPyDict, ih, bind,
      Except.bind]

theorem map_isEmpty {α β : Type} (f : α → β) (l : List α) :
    (l.map f).isEmpty = l.isEmpty := by
  cases l <;> rfl

theorem foldl_max_ge_init {a : ℚ} : ∀ {l : List ℚ}, a ≤ l.foldl max a := by
  intro l
  induction l generalizing a with
  | nil => exact le_refl _
  | cons y ys ih => exact le_trans (le_max_left a y) ih

theorem foldl_max_ge_mem {x a : ℚ} : ∀ {l : List ℚ}, x ∈ l → x ≤ l.foldl max a := by
  intro l
  induction l generalizing a with
  | nil => intro h; cases h
  | cons y ys ih =>
    intro h
    rcases List.mem_cons.mp h with rfl | h'
    · exact le_trans (le_max_right a x) foldl_max_ge_init
    · exact ih h'

theorem foldl_max_mem {a : ℚ} : ∀ {l : List ℚ}, l.foldl max a = a ∨ l.foldl max a ∈ l := by
  intro l
  induction l generalizing a with
  | nil => exact Or.inl rfl
  | cons y ys ih =>
    rcases @ih (max a y) with h | h
    · rw [List.foldl_cons, h]
      rcases max_cases a y with ⟨he, _⟩ | ⟨he, _⟩
      · exact Or.inl he
      · exact Or.inr (by rw [he]; exact List.mem_cons_self _ _)
    · exact Or.inr (List.mem_cons_of_mem _ h)

theorem maxConfD_mem : ∀ {l : List ℚ}, l ≠ [] → maxConfD l ∈ l
  | [], h => absurd rfl h
  | x :: xs, _ => by
    simp only [maxConfD]
    rcases @foldl_max_mem x xs with h | h
    · rw [h]; exact List.mem_cons_self _ _
    · exact List.mem_cons_of_mem _ h

theorem maxConfD_ge {l : List ℚ} {x : ℚ} (h : x ∈ l) : x ≤ maxConfD l := by
  cases l with
  | nil => cases h
  | cons y ys =>
    unfold maxConfD
    rcases List.mem_cons.mp h with rfl | h'
    · exact foldl_max_ge_init
    · exact foldl_max_ge_mem h'

theorem maxConfD_perm {l₁ l₂ : List ℚ} (h : l₁.Perm l₂) : maxConfD l₁ = maxConfD l₂ := by
  cases hl : l₁ with
  | nil =>
    have h2 : l₂ = [] := by
      have hlen := h.length_eq
      rw [hl] at hlen
      exact List.length_eq_zero.mp hlen.symm
    rw [h2]
  | cons x xs =>
    have hne1 : l₁ ≠ [] := by rw [hl]; exact List.cons_ne_nil _ _
    have hne2 : l₂ ≠ [] := by
      intro h2
      have hlen := h.length_eq
      rw [hl, h2] at hlen
      simp at hlen
    rw [← hl]
    exact le_antisymm (maxConfD_ge (h.mem_iff.mp (maxConfD_mem hne1)))
      (maxConfD_ge (h.symm.mem_iff.mp (maxConfD_mem hne2)))

/-- String-level counterpart of `dedupBy` (on wrapped strings the set
equality used by `set.add` is plain string equality). -/
def dedupStr : List String → List String
  | [] => []
  | x :: xs => x :: dedupStr (xs.filter (fun y => !(decide (x = y))))
termination_by l => l.length
decreasing_by
  simp only [List.length_cons]
  exact Nat.lt_succ_of_le (List.length_filter_le _ _)

theorem mem_dedupStr : ∀ {l : List String} {a : String}, a ∈ dedupStr l ↔ a ∈ l := by
  intro l
  induction l using dedupStr.induct with
  | case1 => simp [dedupStr]
  | case2 x xs ih =>
    intro a
    rw [dedupStr]
    by_cases hax : a = x
    · subst hax
      simp
    · simp only [List.mem_cons, ih, List.mem_filter]
      constructor
      · rintro (rfl | ⟨h1, _⟩)
        · exact Or.inl rfl
        · exact Or.inr h1
      · rintro (rfl | h1)
        · exact Or.inl rfl
        · exact Or.inr ⟨h1, by simpa using fun he => hax he.symm⟩

theorem nodup_dedupStr : ∀ l : List String, (dedupStr l).Nodup := by
  intro l
  induction l using dedupStr.induct with
  | case1 => simp [dedupStr]
  | case2 x xs ih =>
    rw [dedupStr]
    refine List.Nodup.cons ?_ ih
    intro hmem
    have := mem_dedupStr.mp hmem
    rw [List.mem_filter] at this
    simpa using this.2

theorem insertLeStr_perm (s : String) : ∀ l : List String, (insertLeStr s l).Perm (s :: l)
  | [] => List.Perm.refl _
  | t :: ts => by
    unfold insertLeStr
    split
    · exact List.Perm.refl _
    · exact ((insertLeStr_perm s ts).cons t).trans (List.Perm.swap s t ts)

theorem sortStrs_perm : ∀ l : List String, (sortStrs l).Perm l
  | [] => List.Perm.refl _
  | s :: ss => (insertLeStr_perm s (sortStrs ss)).trans ((sortStrs_perm ss).cons s)

theorem insertLeStr_sorted {s : String} :
    ∀ {l : List String}, l.Sorted (· ≤ ·) → (insertLeStr s l).Sorted (· ≤ ·) := by
  intro l
  induction l with
  | nil => intro _; simp [insertLeStr]
  | cons t ts ih =>
    intro h
    rw [List.sorted_cons] at h
    unfold insertLeStr
    split
    · next hst =>
      rw [List.sorted_cons]
      refine ⟨?_, List.sorted_cons.mpr h⟩
      intro b hb
      rcases List.mem_cons.mp hb with rfl | hb'
      · exact hst
      · exact le_trans hst (h.1 b hb')
    · next hst =>
      rw [List.sorted_cons]
      refine ⟨?_, ih h.2⟩
      intro b hb
      have := (insertLeStr_perm s ts).mem_iff.mp hb
      rcases List.mem_cons.mp this with rfl | hb'
      · exact le_of_not_le hst
      · exact h.1 b hb'

theorem sortStrs_sorted : ∀ l : List String, (sortStrs l).Sorted (· ≤ ·)
  | [] => by simp [sortStrs]
  | s :: ss => insertLeStr_sorted (sortStrs_sorted ss)

theorem sortStrs_eq_of_perm {l₁ l₂ : List String} (h : l₁.Perm l₂) :
    sortStrs l₁ = sortStrs l₂ :=
  List.eq_of_perm_of_sorted ((sortStrs_perm l₁).trans (h.trans (sortStrs_perm l₂).symm))
    (sortStrs_sorted l₁) (sortStrs_sorted l₂)

theorem dedupBy_map_str : ∀ D : List String,
    dedupBy (D.map PyVal.str) = (dedupStr D).map PyVal.str := by
  intro D
  induction D using dedupStr.induct with
  | case1 => simp [dedupBy, dedupStr]
  | case2 x xs ih =>
    rw [List.map_cons, dedupBy, dedupStr, List.map_cons]
    congr 1
    rw [List.filter_map]
    have hpt : ∀ t ∈ xs,
        ((fun y => !pyEqH (PyVal.str x) y) ∘ PyVal.str) t = (fun y => !(decide (x = y))) t :=
      fun t _ => rfl
    rw [List.filter_congr hpt]
    exact ih

theorem collectTags_toAgg : ∀ fl : List CRecord,
    collectTags (fl.map CRecord.toAgg) =
      Except.ok ((fl.flatMap CRecord.categories).map PyVal.str)
  | [] => rfl
  | r :: rest => by
    have ih := collectTags_toAgg rest
    rw [List.map_cons, collectTags]
    have hall : (CRecord.toAgg r).categories.all hashableTag = true := by
      rw [List.all_eq_true]
      intro c hc
      obtain ⟨t, _, rfl⟩ := List.mem_map.mp hc
      rfl
    rw [if_pos hall]
    simp only [ih, bind, Except.bind, List.flatMap_cons, List.map_append]
    rfl

theorem pySortedTags_map_str : ∀ D : List String,
    pySortedTags (D.map PyVal.str) = Except.ok ((sortStrs D).map PyVal.str)
  | [] => rfl
  | [s] => rfl
  | a :: b :: rest => by
    unfold pySortedTags
    rw [if_neg (by simp)]
    have hall : ((a :: b :: rest).map PyVal.str).all (fun c => (strOf c).isSome) = true := by
      rw [List.all_eq_true]
      intro c hc
      obtain ⟨t, _, rfl⟩ := List.mem_map.mp hc
      rfl
    rw [if_pos hall]
    have hfm : ((a :: b :: rest).map PyVal.str).filterMap strOf = a :: b :: rest := by
      rw [List.filterMap_map]
      have hpt : ∀ t ∈ a :: b :: rest, (strOf ∘ PyVal.str) t = some t := fun t _ => rfl
      rw [List.filterMap_congr hpt, List.filterMap_some]
    rw [hfm]

theorem pySorted_filter_str (D : List String) :
    pySortedTags ((D.map PyVal.str).filter (fun c =>
        match c with
        | PyVal.str s => decide (s ≠ "None")
        | _ => true)) =
      Except.ok ((sortStrs (D.filter (fun c => decide (c ≠ "None")))).map PyVal.str) := by
  rw [List.filter_map]
  have hpt : ∀ t ∈ D,
      ((fun c => match c with
        | PyVal.str s => decide (s ≠ "None")
        | _ => true) ∘ PyVal.str) t = (fun c => decide (c ≠ "None")) t :=
    fun t _ => rfl
  rw [List.filter_congr hpt]
  exact pySortedTags_map_str _

theorem summCategories_map_str : ∀ D : List String,
    summCategories (D.map PyVal.str) =
      Except.ok ((sortStrs (D.filter (fun c => decide (c ≠ "None")))).map PyVal.str)
  | [] => by
    unfold summCategories
    rw [if_neg (by decide)]
    exact pySorted_filter_str []
  | [s] => by
    unfold summCategories
    by_cases hs : s = "None"
    · subst hs
      rw [if_pos (by decide)]
      rfl
    · rw [if_neg (by simpa using hs)]
      exact pySorted_filter_str [s]
  | a :: b :: rest => by
    unfold summCategories
    rw [if_neg (by simp)]
    exact pySorted_filter_str (a :: b :: rest)

/-! ### The closed form of the aggregator on typed records -/

/-- The flagged records (`mnpi == "yes"`). -/
def flagsT (l : List CRecord) : List CRecord :=
  l.filter (fun r => isStrEq (some (PyVal.str r.mnpi)) "yes")

/-- Whether any record is `unclear`. -/
def unclearAnyT (l : List CRecord) : Bool :=
  l.any (fun r => isStrEq (some (PyVal.str r.mnpi)) "unclear")

/-- The document-level category list: union of flagged records' tags,
deduplicated, with the `None` sentinel removed, sorted ascending. -/
def catsT (l : List CRecord) : List String :=
  sortStrs ((dedupStr ((flagsT l).flatMap CRecord.categories)).filter
    (fun c => decide (c ≠ "None")))

/-- What `aggregate_results` computes on a sequence of well-typed records. -/
def summaryT (l : List CRecord) : DocSummary :=
  if (flagsT l).isEmpty then
    { overall_mnpi := "no",
      categories := [],
      overall_confidence := round2 (maxConfD (l.map CRecord.confidence)),
      reason :=
        if unclearAnyT l then
          "No MNPI detected; some chunks marked unclear - human review recommended."
        else "No MNPI detected.",
      recommended_action := if unclearAnyT l then "human_review" else "no_action" }
  else
    { overall_mnpi := "yes",
      categories := (catsT l).map PyVal.str,
      overall_confidence := round2 (maxConfD ((flagsT l).map CRecord.confidence)),
      reason := "Detected MNPI in " ++ toString (flagsT l).length ++ " chunk(s).",
      recommended_action :=
        if 0.75 ≤ round2 (maxConfD ((flagsT l).map CRecord.confidence)) then "escalate"
        else "human_review" }

theorem any_map_general {α β : Type} (f : α → β) (p : β → Bool) :
    ∀ l : List α, (l.map f).any p = l.any (p ∘ f)
  | [] => rfl
  | x :: xs => by
    simp only [List.map_cons, List.any_cons, any_map_general f p xs]
    rfl

theorem flags_map_toAgg (l : List CRecord) :
    (l.map CRecord.toAgg).filter (fun r => isStrEq (some r.mnpi) "yes") =
      (flagsT l).map CRecord.toAgg := by
  rw [List.filter_map]
  rfl

theorem aggregate_toPy (l : List CRecord) :
    aggregate_results (l.map CRecord.toPy) = Except.ok (summaryT l) := by
  unfold aggregate_results
  rw [aggNormalize_map_toPy]
  simp only [bind, Except.bind]
  unfold summarize summaryT
  rw [flags_map_toAgg]
  simp only [map_isEmpty]
  by_cases hemp : (flagsT l).isEmpty
  · rw [if_pos hemp, if_pos hemp]
    rw [List.map_map, any_map_general]
    rfl
  · rw [if_neg hemp, if_neg hemp]
    rw [collectTags_toAgg]
    simp only [bind, Except.bind]
    rw [dedupBy_map_str, summCategories_map_str]
    simp only [List.map_map, List.length_map]
    rfl

theorem mem_flagsT {l : List CRecord} {r : CRecord} :
    r ∈ flagsT l ↔ r ∈ l ∧ r.mnpi = "yes" := by
  unfold flagsT
  rw [List.mem_filter]
  simp [isStrEq]

/-- C6: when at least one record is flagged `yes`, the summary verdict is
`yes`; its categories are exactly the sorted, deduplicated union of the
flagged records' tags with the `None` sentinel excluded (hence empty when
the union was only `None`); its confidence is the maximum confidence among
flagged records rounded to two decimals; and the action is `escalate`
exactly when that rounded confidence reaches 0.75, else `human_review`. -/
theorem C6_flagged_aggregation (l : List CRecord) (hflag : ∃ r ∈ l, r.mnpi = "yes")
    (s : DocSummary) (h : aggregate_results (l.map CRecord.toPy) = Except.ok s) :
    s.overall_mnpi = "yes" ∧
    (∃ cs : List String, s.categories = cs.map PyVal.str ∧ cs.Sorted (· < ·) ∧
      ∀ c, c ∈ cs ↔ (c ≠ "None" ∧ ∃ r ∈ l, r.mnpi = "yes" ∧ c ∈ r.categories)) ∧
    (∃ M, s.overall_confidence = round2 M ∧
      (∃ r ∈ l, r.mnpi = "yes" ∧ r.confidence = M) ∧
      (∀ r ∈ l, r.mnpi = "yes" → r.confidence ≤ M)) ∧
    (0.75 ≤ s.overall_confidence → s.recommended_action = "escalate") ∧
    (s.overall_confidence < 0.75 → s.recommended_action = "human_review") := by
  rw [aggregate_toPy] at h
  injection h with h
  subst h
  obtain ⟨r0, hr0l, hr0y⟩ := hflag
  have hr0f : r0 ∈ flagsT l := mem_flagsT.mpr ⟨hr0l, hr0y⟩
  have hfne : flagsT l ≠ [] := fun he => by rw [he] at hr0f; cases hr0f
  have hne : (flagsT l).isEmpty = false :=
    Bool.eq_false_iff.mpr (fun ht => hfne (List.isEmpty_iff.mp ht))
  unfold summaryT
  simp only [hne, Bool.false_eq_true, if_false]
  refine ⟨by trivial, ⟨catsT l, by trivial, ?_, ?_⟩, ?_, ?_, ?_⟩
  · -- sorted strictly: sorted (≤) plus nodup
    apply List.Sorted.lt_of_le (sortStrs_sorted _)
    exact ((sortStrs_perm _).nodup_iff).mpr ((nodup_dedupStr _).filter _)
  · intro c
    unfold catsT
    rw [(sortStrs_perm _).mem_iff, List.mem_filter, mem_dedupStr, List.mem_flatMap]
    constructor
    · rintro ⟨⟨r, hrf, hrc⟩, hnn⟩
      obtain ⟨hrl, hry⟩ := mem_flagsT.mp hrf
      exact ⟨by simpa using hnn, r, hrl, hry, hrc⟩
    · rintro ⟨hnn, r, hrl, hry, hrc⟩
      exact ⟨⟨r, mem_flagsT.mpr ⟨hrl, hry⟩, hrc⟩, by simpa using hnn⟩
  · refine ⟨maxConfD ((flagsT l).map CRecord.confidence), rfl, ?_, ?_⟩
    · have hmapne : (flagsT l).map CRecord.confidence ≠ [] := by
        simpa [List.map_eq_nil_iff] using hfne
      obtain ⟨r, hrf, hrc⟩ := List.mem_map.mp (maxConfD_mem hmapne)
      obtain ⟨hrl, hry⟩ := mem_flagsT.mp hrf
      exact ⟨r, hrl, hry, hrc⟩
    · intro r hrl hry
      exact maxConfD_ge (List.mem_map.mpr ⟨r, mem_flagsT.mpr ⟨hrl, hry⟩, rfl⟩)
  · intro hge
    simp only [if_pos hge]
  · intro hlt
    simp only [if_neg (not_le.mpr hlt)]

/-- C7: when no record is flagged, the summary verdict is `no` with empty
categories; its confidence is the maximum confidence across all records
(0 for the empty sequence) rounded to two decimals; the action is
`human_review` exactly when some record is `unclear`, else `no_action`;
and (last conjunct) the document-level verdict is always `no` or `yes` —
`unclear` never surfaces at the document level. -/
theorem C7_unflagged_aggregation (l : List CRecord) (hnone : ∀ r ∈ l, r.mnpi ≠ "yes")
    (s : DocSummary) (h : aggregate_results (l.map CRecord.toPy) = Except.ok s) :
    s.overall_mnpi = "no" ∧ s.categories = [] ∧
    (∃ M, s.overall_confidence = round2 M ∧
      ((l = [] ∧ M = 0) ∨ ((∃ r ∈ l, r.confidence = M) ∧ ∀ r ∈ l, r.confidence ≤ M))) ∧
    ((∃ r ∈ l, r.mnpi = "unclear") → s.recommended_action = "human_review") ∧
    ((∀ r ∈ l, r.mnpi ≠ "unclear") → s.recommended_action = "no_action") ∧
    (∀ (l' : List CRecord) (s' : DocSummary),
      aggregate_results (l'.map CRecord.toPy) = Except.ok s' →
      s'.overall_mnpi = "no" ∨ s'.overall_mnpi = "yes") := by
  rw [aggregate_toPy] at h
  injection h with h
  subst h
  have hfl : flagsT l = [] := by
    unfold flagsT
    rw [List.filter_eq_nil_iff]
    intro r hrl
    simp [isStrEq, hnone r hrl]
  have hie : (flagsT l).isEmpty = true := by rw [hfl]; rfl
  have hunc : unclearAnyT l = true ↔ ∃ r ∈ l, r.mnpi = "unclear" := by
    unfold unclearAnyT
    rw [List.any_eq_true]
    constructor
    · rintro ⟨r, hrl, hr⟩
      exact ⟨r, hrl, by simpa [isStrEq] using hr⟩
    · rintro ⟨r, hrl, hr⟩
      exact ⟨r, hrl, by simpa [isStrEq] using hr⟩
  unfold summaryT
  simp only [hie, if_true]
  refine ⟨by trivial, by trivial, ?_, ?_, ?_, ?_⟩
  · refine ⟨maxConfD (l.map CRecord.confidence), rfl, ?_⟩
    cases hl : l with
    | nil => exact Or.inl ⟨rfl, rfl⟩
    | cons x xs =>
      rw [← hl]
      refine Or.inr ⟨?_, ?_⟩
      · have hmapne : l.map CRecord.confidence ≠ [] := by
          simp [List.map_eq_nil_iff, hl]
        obtain ⟨r, hrl, hrc⟩ := List.mem_map.mp (maxConfD_mem hmapne)
        exact ⟨r, hrl, hrc⟩
      · intro r hrl
        exact maxConfD_ge (List.mem_map.mpr ⟨r, hrl, rfl⟩)
  · intro hex
    rw [if_pos (hunc.mpr hex)]
  · intro hall
    have : unclearAnyT l = false := by
      cases hu : unclearAnyT l
      · rfl
      · obtain ⟨r, hrl, hr⟩ := hunc.mp hu
        exact absurd hr (hall r hrl)
    simp only [this, Bool.false_eq_true, if_false]
  · intro l' s' h'
    rw [aggregate_toPy] at h'
    injection h' with h'
    subst h'
    unfold summaryT
    split
    · exact Or.inl rfl
    · exact Or.inr rfl

theorem perm_isEmpty {α : Type} {l₁ l₂ : List α} (h : l₁.Perm l₂) :
    l₁.isEmpty = l₂.isEmpty := by
  cases l₁ with
  | nil =>
    cases l₂ with
    | nil => rfl
    | cons b bs => have := h.length_eq; simp at this
  | cons a as =>
    cases l₂ with
    | nil => have := h.length_eq; simp at this
    | cons b bs => rfl

theorem perm_any {α : Type} (p : α → Bool) {l₁ l₂ : List α} (h : l₁.Perm l₂) :
    l₁.any p = l₂.any p := by
  induction h with
  | nil => rfl
  | cons x _ ih => simp [List.any_cons, ih]
  | swap x y lrest =>
    simp only [List.any_cons]
    rw [← Bool.or_assoc, Bool.or_comm (p y) (p x), Bool.or_assoc]
  | trans _ _ ih1 ih2 => exact ih1.trans ih2

theorem summaryT_perm {l₁ l₂ : List CRecord} (hperm : l₁.Perm l₂) :
    summaryT l₁ = summaryT l₂ := by
  have hfl : (flagsT l₁).Perm (flagsT l₂) := hperm.filter _
  have hie : (flagsT l₁).isEmpty = (flagsT l₂).isEmpty := perm_isEmpty hfl
  have hmax1 : maxConfD (l₁.map CRecord.confidence) = maxConfD (l₂.map CRecord.confidence) :=
    maxConfD_perm (hperm.map _)
  have hmax2 : maxConfD ((flagsT l₁).map CRecord.confidence) =
      maxConfD ((flagsT l₂).map CRecord.confidence) := maxConfD_perm (hfl.map _)
  have hunc : unclearAnyT l₁ = unclearAnyT l₂ := perm_any _ hperm
  have hlen : (flagsT l₁).length = (flagsT l₂).length := hfl.length_eq
  have hcats : catsT l₁ = catsT l₂ := by
    have hT : ((flagsT l₁).flatMap CRecord.categories).Perm
        ((flagsT l₂).flatMap CRecord.categories) := List.Perm.flatMap_right _ hfl
    unfold catsT
    apply sortStrs_eq_of_perm
    rw [List.perm_ext_iff_of_nodup ((nodup_dedupStr _).filter _) ((nodup_dedupStr _).filter _)]
    intro a
    simp only [List.mem_filter, mem_dedupStr, hT.mem_iff]
  unfold summaryT
  rw [hie, hmax1, hmax2, hunc, hlen, hcats]

/-- C9: aggregation is permutation-invariant — permuting the input records
leaves the entire resulting summary (all five fields, the reason string
included) unchanged. -/
theorem C9_permutation_invariant (l₁ l₂ : List CRecord) (hperm : l₁.Perm l₂) :
    aggregate_results (l₁.map CRecord.toPy) = aggregate_results (l₂.map CRecord.toPy) := by
  rw [aggregate_toPy, aggregate_toPy, summaryT_perm hperm]

/-- A flagged record: `yes` at confidence 0.9 with one M&A tag. -/
def W6a : CRecord :=
  ⟨"yes", ["M&A/Transactions"], 9/10, "deal terms", "high", "escalate", ""⟩

/-- An unflagged record: `no` at confidence 0.2. -/
def W6b : CRecord := ⟨"no", ["None"], 1/5, "benign", "low", "no_action", ""⟩

/-- An `unclear` record at confidence 0.4. -/
def W7u : CRecord := ⟨"unclear", ["None"], 2/5, "ambiguous", "low", "human_review", ""⟩

/-- C6 witness: the spec's flagged example, one `yes` (0.9, M&A) and one
`no` (0.2). -/
theorem C6_flagged_aggregation_witness :
    (summaryT [W6a, W6b]).overall_mnpi = "yes" ∧
    (∃ cs : List String, (summaryT [W6a, W6b]).categories = cs.map PyVal.str ∧
      cs.Sorted (· < ·) ∧
      ∀ c, c ∈ cs ↔ (c ≠ "None" ∧ ∃ r ∈ [W6a, W6b], r.mnpi = "yes" ∧ c ∈ r.categories)) ∧
    (∃ M, (summaryT [W6a, W6b]).overall_confidence = round2 M ∧
      (∃ r ∈ [W6a, W6b], r.mnpi = "yes" ∧ r.confidence = M) ∧
      (∀ r ∈ [W6a, W6b], r.mnpi = "yes" → r.confidence ≤ M)) ∧
    (0.75 ≤ (summaryT [W6a, W6b]).overall_confidence →
      (summaryT [W6a, W6b]).recommended_action = "escalate") ∧
    ((summaryT [W6a, W6b]).overall_confidence < 0.75 →
      (summaryT [W6a, W6b]).recommended_action = "human_review") :=
  C6_flagged_aggregation [W6a, W6b] ⟨W6a, by decide, rfl⟩ (summaryT [W6a, W6b])
    (aggregate_toPy _)

/-- C7 witness: the spec's unclear example, one `no` (0.2) and one
`unclear` (0.4). -/
theorem C7_unflagged_aggregation_witness :
    (summaryT [W6b, W7u]).overall_mnpi = "no" ∧ (summaryT [W6b, W7u]).categories = [] ∧
    (∃ M, (summaryT [W6b, W7u]).overall_confidence = round2 M ∧
      (([W6b, W7u] : List CRecord) = [] ∧ M = 0 ∨
        ((∃ r ∈ [W6b, W7u], r.confidence = M) ∧ ∀ r ∈ [W6b, W7u], r.confidence ≤ M))) ∧
    ((∃ r ∈ [W6b, W7u], r.mnpi = "unclear") →
      (summaryT [W6b, W7u]).recommended_action = "human_review") ∧
    ((∀ r ∈ [W6b, W7u], r.mnpi ≠ "unclear") →
      (summaryT [W6b, W7u]).recommended_action = "no_action") ∧
    (∀ (l' : List CRecord) (s' : DocSummary),
      aggregate_results (l'.map CRecord.toPy) = Except.ok s' →
      s'.overall_mnpi = "no" ∨ s'.overall_mnpi = "yes") :=
  C7_unflagged_aggregation [W6b, W7u] (by decide) (summaryT [W6b, W7u]) (aggregate_toPy _)

/-- C9 witness: swapping the two records of the C6 example leaves the
aggregate unchanged. -/
theorem C9_permutation_invariant_witness :
    aggregate_results ([W6a, W6b].map CRecord.toPy) =
      aggregate_results ([W6b, W6a].map CRecord.toPy) :=
  C9_permutation_invariant [W6a, W6b] [W6b, W6a] (by decide)
